import Mathlib

/-!
Verification of the indexed quad storage engine of `src/lib/src/storage/mod.rs`
(the sled-backed storage layer of an RDF store).

The byte-level binary encoder (`binary_encoder`) and the numeric term encoder
(`numeric_encoder`) are not part of the sources under verification; per the
specification the encoding of a term is canonical, deterministic and
self-delimiting, so that a composite index key (a concatenation of encoded
terms) is faithfully modelled by the list of its component terms, and the
prefix of a scan by a list of leading terms.  All the storage logic itself
(`Storage`, `StorageTransaction`, the iterators, open/versioning and
transactions) is transcribed from `storage/mod.rs`.
-/

set_option maxHeartbeats 1000000
set_option linter.unreachableTactic false
set_option linter.unusedTactic false

namespace QuadStorage

/-- Modelled from the spec: an encoded RDF term (`numeric_encoder::EncodedTerm`
is not among the sources).  A term is a named node, a blank node, a literal
(lexical form plus datatype-or-language discriminator), the default-graph
marker (valid only in the graph position), or a nested triple term.  The
storage layer inspects a term only through `is_default_graph` and equality. -/
inductive EncodedTerm where
  | defaultGraph : EncodedTerm
  | namedNode (iri : String) : EncodedTerm
  | blankNode (id : String) : EncodedTerm
  | literal (lexical : String) (datatypeOrLang : String) : EncodedTerm
  | tripleTerm (s p o : EncodedTerm) : EncodedTerm
deriving DecidableEq, Repr

/-- `EncodedTerm::is_default_graph` of `numeric_encoder`: `true` exactly on the
default-graph marker. -/
def EncodedTerm.is_default_graph : EncodedTerm → Bool
  | .defaultGraph => true
  | _ => false

/-- `numeric_encoder::EncodedQuad`: four encoded terms; `graph_name` may be the
default-graph marker. -/
structure EncodedQuad where
  subject : EncodedTerm
  predicate : EncodedTerm
  object : EncodedTerm
  graph_name : EncodedTerm
deriving DecidableEq, Repr

/-- Modelled from the spec: a composite index key is the concatenation of
self-delimiting encoded terms, so it is faithfully represented by the list of
its component terms. -/
abbrev Key := List EncodedTerm

/-- `binary_encoder::write_spo_quad`: key `s · p · o` (default-graph order). -/
def write_spo_quad (q : EncodedQuad) : Key := [q.subject, q.predicate, q.object]

/-- `binary_encoder::write_pos_quad`: key `p · o · s`. -/
def write_pos_quad (q : EncodedQuad) : Key := [q.predicate, q.object, q.subject]

/-- `binary_encoder::write_osp_quad`: key `o · s · p`. -/
def write_osp_quad (q : EncodedQuad) : Key := [q.object, q.subject, q.predicate]

/-- `binary_encoder::write_spog_quad`: key `s · p · o · g`. -/
def write_spog_quad (q : EncodedQuad) : Key :=
  [q.subject, q.predicate, q.object, q.graph_name]

/-- `binary_encoder::write_posg_quad`: key `p · o · s · g`. -/
def write_posg_quad (q : EncodedQuad) : Key :=
  [q.predicate, q.object, q.subject, q.graph_name]

/-- `binary_encoder::write_ospg_quad`: key `o · s · p · g`. -/
def write_ospg_quad (q : EncodedQuad) : Key :=
  [q.object, q.subject, q.predicate, q.graph_name]

/-- `binary_encoder::write_gspo_quad`: key `g · s · p · o`. -/
def write_gspo_quad (q : EncodedQuad) : Key :=
  [q.graph_name, q.subject, q.predicate, q.object]

/-- `binary_encoder::write_gpos_quad`: key `g · p · o · s`. -/
def write_gpos_quad (q : EncodedQuad) : Key :=
  [q.graph_name, q.predicate, q.object, q.subject]

/-- `binary_encoder::write_gosp_quad`: key `g · o · s · p`. -/
def write_gosp_quad (q : EncodedQuad) : Key :=
  [q.graph_name, q.object, q.subject, q.predicate]

/-- `binary_encoder::encode_term`: the key holding one encoded term. -/
def encode_term (t : EncodedTerm) : Key := [t]

/-- `binary_encoder::write_term`: append one self-delimiting encoded term. -/
def write_term (t : EncodedTerm) : Key := [t]

/-- `binary_encoder::encode_term_pair`. -/
def encode_term_pair (t1 t2 : EncodedTerm) : Key := [t1, t2]

/-- `binary_encoder::encode_term_triple`. -/
def encode_term_triple (t1 t2 t3 : EncodedTerm) : Key := [t1, t2, t3]

/-- `binary_encoder::encode_term_quad`. -/
def encode_term_quad (t1 t2 t3 t4 : EncodedTerm) : Key := [t1, t2, t3, t4]

/-- `binary_encoder::QuadEncoding`: discriminator selecting one of the nine
per-keyspace decoders. -/
inductive QuadEncoding where
  | Spog | Posg | Ospg | Gspo | Gpos | Gosp | Dspo | Dpos | Dosp
deriving DecidableEq, Repr

/-- Modelled from the spec: each decoder reads the terms in the order declared
by its name; the default-graph decoders synthesize the default-graph marker
for `g`.  A key of the wrong shape is a decode error (`None`). -/
def QuadEncoding.decode : QuadEncoding → Key → Option EncodedQuad
  | .Spog, [s, p, o, g] => some ⟨s, p, o, g⟩
  | .Posg, [p, o, s, g] => some ⟨s, p, o, g⟩
  | .Ospg, [o, s, p, g] => some ⟨s, p, o, g⟩
  | .Gspo, [g, s, p, o] => some ⟨s, p, o, g⟩
  | .Gpos, [g, p, o, s] => some ⟨s, p, o, g⟩
  | .Gosp, [g, o, s, p] => some ⟨s, p, o, g⟩
  | .Dspo, [s, p, o] => some ⟨s, p, o, .defaultGraph⟩
  | .Dpos, [p, o, s] => some ⟨s, p, o, .defaultGraph⟩
  | .Dosp, [o, s, p] => some ⟨s, p, o, .defaultGraph⟩
  | _, _ => none

/-! ### The key-value substrate

Modelled from the spec (§2, §6): an ordered key-value keyspace ("tree") with
point get/put/delete, prefix iteration and truncation.  A tree with empty
values is a duplicate-free list of keys; `insert` returns whether the key was
absent (sled's `insert(..).is_none()`), `remove` whether it was present. -/

/-- Does the key start with the given sequence of component terms?  (The byte
encoding of terms is self-delimiting, so a byte prefix made of whole encoded
terms corresponds exactly to a leading sublist of component terms.) -/
def keyHasPre {α : Type _} [DecidableEq α] : List α → List α → Bool
  | [], _ => true
  | _ :: _, [] => false
  | a :: as, b :: bs => if a = b then keyHasPre as bs else false

/-- Substrate tree insert with an empty value: appends the key if absent;
returns the tree and whether the key was new. -/
def treeInsert {α : Type _} [DecidableEq α] (t : List α) (k : α) : List α × Bool :=
  if k ∈ t then (t, false) else (t ++ [k], true)

/-- Substrate tree remove: erases the key if present; returns the tree and
whether the key was present. -/
def treeRemove {α : Type _} [DecidableEq α] (t : List α) (k : α) : List α × Bool :=
  if k ∈ t then (t.erase k, true) else (t, false)

/-- Substrate prefix scan: the keys extending the prefix, in tree order. -/
def treeScan (t : List Key) (pre : Key) : List Key :=
  t.filter (fun k => keyHasPre pre k)

/-- Substrate insert on the `id2str` tree (keys are 128-bit string hashes,
modelled as `Nat`; values are the strings).  sled's `insert` upserts and
returns the previous value; `insert_str` reports `is_none()` of it. -/
def kvInsert (t : List (Nat × String)) (k : Nat) (v : String) :
    List (Nat × String) × Bool :=
  if (t.lookup k).isSome then
    (t.map (fun p => if p.1 = k then (k, v) else p), false)
  else
    (t ++ [(k, v)], true)

/-! ### The storage state

`Storage` of `storage/mod.rs`: eleven named keyspaces.  (The default keyspace
of the sled `Db`, which holds only the reserved `oxversion` key, is modelled
separately in the open/versioning section.) -/

/-- The eleven keyspaces of `Storage` (`storage/mod.rs` lines 30-43). -/
structure Storage where
  id2str : List (Nat × String)
  spog : List Key
  posg : List Key
  ospg : List Key
  gspo : List Key
  gpos : List Key
  gosp : List Key
  dspo : List Key
  dpos : List Key
  dosp : List Key
  graphs : List Key
deriving DecidableEq, Repr

/-- The store with all eleven keyspaces empty. -/
def emptyStorage : Storage := ⟨[], [], [], [], [], [], [], [], [], [], []⟩

/-- `DecodingQuadIterator`: a raw key iterator over one tree plus the
decoder for that tree's order. -/
structure DecodingQuadIterator where
  keys : List Key
  encoding : QuadEncoding
deriving DecidableEq, Repr

/-- `ChainedDecodingQuadIterator`: a first iterator and an optional second
one (`storage/mod.rs` lines 633-652). -/
structure ChainedDecodingQuadIterator where
  first : DecodingQuadIterator
  second : Option DecodingQuadIterator
deriving DecidableEq, Repr

/-- `ChainedDecodingQuadIterator::new`. -/
def ChainedDecodingQuadIterator.new (first : DecodingQuadIterator) :
    ChainedDecodingQuadIterator :=
  ⟨first, none⟩

/-- `ChainedDecodingQuadIterator::pair`. -/
def ChainedDecodingQuadIterator.pair (first second : DecodingQuadIterator) :
    ChainedDecodingQuadIterator :=
  ⟨first, some second⟩

/-- `DecodingQuadIterator::next` (`storage/mod.rs` lines 673-682): pop the
head key and decode it (`None` from the decoder models the `Err` item). -/
def DecodingQuadIterator.next (it : DecodingQuadIterator) :
    Option (Option EncodedQuad × DecodingQuadIterator) :=
  match it.keys with
  | [] => none
  | k :: rest => some (it.encoding.decode k, ⟨rest, it.encoding⟩)

/-- `ChainedDecodingQuadIterator::next` (`storage/mod.rs` lines 657-665):
yield from `first` while it lasts, then from `second` if present. -/
def ChainedDecodingQuadIterator.next (it : ChainedDecodingQuadIterator) :
    Option (Option EncodedQuad × ChainedDecodingQuadIterator) :=
  match it.first.next with
  | some (x, f') => some (x, ⟨f', it.second⟩)
  | none =>
    match it.second with
    | some s =>
      match s.next with
      | some (x, s') => some (x, ⟨it.first, some s'⟩)
      | none => none
    | none => none

/-- All items of a `DecodingQuadIterator`, in order. -/
def DecodingQuadIterator.toList (it : DecodingQuadIterator) :
    List (Option EncodedQuad) :=
  it.keys.map it.encoding.decode

/-- All items of a `ChainedDecodingQuadIterator`, in order: the first iterator
is fully drained before the second (this is proved against `next` in
`ChainedDecodingQuadIterator.next_toList` below). -/
def ChainedDecodingQuadIterator.toList (it : ChainedDecodingQuadIterator) :
    List (Option EncodedQuad) :=
  it.first.toList ++ (match it.second with
    | some s => s.toList
    | none => [])

namespace Storage

/-- `Storage::len` (`storage/mod.rs` lines 150-152). -/
def len (st : Storage) : Nat :=
  st.gspo.length + st.dspo.length

/-- `Storage::is_empty` (`storage/mod.rs` lines 154-156). -/
def is_empty (st : Storage) : Bool :=
  st.gspo.isEmpty && st.dspo.isEmpty

/-- `Storage::contains` (`storage/mod.rs` lines 158-167). -/
def contains (st : Storage) (quad : EncodedQuad) : Bool :=
  if quad.graph_name.is_default_graph then
    decide (write_spo_quad quad ∈ st.dspo)
  else
    decide (write_gspo_quad quad ∈ st.gspo)

/-- `Storage::inner_quads` (`storage/mod.rs` lines 448-458). -/
def inner_quads (tree : List Key) (pre : Key) (encoding : QuadEncoding) :
    DecodingQuadIterator :=
  ⟨treeScan tree pre, encoding⟩

/-- `Storage::spog_quads`. -/
def spog_quads (st : Storage) (pre : Key) : DecodingQuadIterator :=
  inner_quads st.spog pre .Spog

/-- `Storage::posg_quads`. -/
def posg_quads (st : Storage) (pre : Key) : DecodingQuadIterator :=
  inner_quads st.posg pre .Posg

/-- `Storage::ospg_quads`. -/
def ospg_quads (st : Storage) (pre : Key) : DecodingQuadIterator :=
  inner_quads st.ospg pre .Ospg

/-- `Storage::gspo_quads`. -/
def gspo_quads (st : Storage) (pre : Key) : DecodingQuadIterator :=
  inner_quads st.gspo pre .Gspo

/-- `Storage::gpos_quads`. -/
def gpos_quads (st : Storage) (pre : Key) : DecodingQuadIterator :=
  inner_quads st.gpos pre .Gpos

/-- `Storage::gosp_quads`. -/
def gosp_quads (st : Storage) (pre : Key) : DecodingQuadIterator :=
  inner_quads st.gosp pre .Gosp

/-- `Storage::dspo_quads`. -/
def dspo_quads (st : Storage) (pre : Key) : DecodingQuadIterator :=
  inner_quads st.dspo pre .Dspo

/-- `Storage::dpos_quads`. -/
def dpos_quads (st : Storage) (pre : Key) : DecodingQuadIterator :=
  inner_quads st.dpos pre .Dpos

/-- `Storage::dosp_quads`. -/
def dosp_quads (st : Storage) (pre : Key) : DecodingQuadIterator :=
  inner_quads st.dosp pre .Dosp

/-- `Storage::quads` (`storage/mod.rs` lines 232-237). -/
def quads (st : Storage) : ChainedDecodingQuadIterator :=
  .pair (st.dspo_quads []) (st.gspo_quads [])

/-- `Storage::quads_for_subject`. -/
def quads_for_subject (st : Storage) (subject : EncodedTerm) :
    ChainedDecodingQuadIterator :=
  .pair (st.dspo_quads (encode_term subject)) (st.spog_quads (encode_term subject))

/-- `Storage::quads_for_subject_predicate`. -/
def quads_for_subject_predicate (st : Storage) (subject predicate : EncodedTerm) :
    ChainedDecodingQuadIterator :=
  .pair (st.dspo_quads (encode_term_pair subject predicate))
    (st.spog_quads (encode_term_pair subject predicate))

/-- `Storage::quads_for_subject_predicate_object`. -/
def quads_for_subject_predicate_object (st : Storage)
    (subject predicate object : EncodedTerm) : ChainedDecodingQuadIterator :=
  .pair (st.dspo_quads (encode_term_triple subject predicate object))
    (st.spog_quads (encode_term_triple subject predicate object))

/-- `Storage::quads_for_subject_object`. -/
def quads_for_subject_object (st : Storage) (subject object : EncodedTerm) :
    ChainedDecodingQuadIterator :=
  .pair (st.dosp_quads (encode_term_pair object subject))
    (st.ospg_quads (encode_term_pair object subject))

/-- `Storage::quads_for_predicate`. -/
def quads_for_predicate (st : Storage) (predicate : EncodedTerm) :
    ChainedDecodingQuadIterator :=
  .pair (st.dpos_quads (encode_term predicate)) (st.posg_quads (encode_term predicate))

/-- `Storage::quads_for_predicate_object`. -/
def quads_for_predicate_object (st : Storage) (predicate object : EncodedTerm) :
    ChainedDecodingQuadIterator :=
  .pair (st.dpos_quads (encode_term_pair predicate object))
    (st.posg_quads (encode_term_pair predicate object))

/-- `Storage::quads_for_object`. -/
def quads_for_object (st : Storage) (object : EncodedTerm) :
    ChainedDecodingQuadIterator :=
  .pair (st.dosp_quads (encode_term object)) (st.ospg_quads (encode_term object))

/-- `Storage::quads_for_graph` (`storage/mod.rs` lines 305-311). -/
def quads_for_graph (st : Storage) (graph_name : EncodedTerm) :
    ChainedDecodingQuadIterator :=
  .new (if graph_name.is_default_graph then
    st.dspo_quads []
  else
    st.gspo_quads (encode_term graph_name))

/-- `Storage::quads_for_subject_graph`. -/
def quads_for_subject_graph (st : Storage) (subject graph_name : EncodedTerm) :
    ChainedDecodingQuadIterator :=
  .new (if graph_name.is_default_graph then
    st.dspo_quads (encode_term subject)
  else
    st.gspo_quads (encode_term_pair graph_name subject))

/-- `Storage::quads_for_subject_predicate_graph`. -/
def quads_for_subject_predicate_graph (st : Storage)
    (subject predicate graph_name : EncodedTerm) : ChainedDecodingQuadIterator :=
  .new (if graph_name.is_default_graph then
    st.dspo_quads (encode_term_pair subject predicate)
  else
    st.gspo_quads (encode_term_triple graph_name subject predicate))

/-- `Storage::quads_for_subject_predicate_object_graph`. -/
def quads_for_subject_predicate_object_graph (st : Storage)
    (subject predicate object graph_name : EncodedTerm) :
    ChainedDecodingQuadIterator :=
  .new (if graph_name.is_default_graph then
    st.dspo_quads (encode_term_triple subject predicate object)
  else
    st.gspo_quads (encode_term_quad graph_name subject predicate object))

/-- `Storage::quads_for_subject_object_graph`. -/
def quads_for_subject_object_graph (st : Storage)
    (subject object graph_name : EncodedTerm) : ChainedDecodingQuadIterator :=
  .new (if graph_name.is_default_graph then
    st.dosp_quads (encode_term_pair object subject)
  else
    st.gosp_quads (encode_term_triple graph_name object subject))

/-- `Storage::quads_for_predicate_graph`. -/
def quads_for_predicate_graph (st : Storage) (predicate graph_name : EncodedTerm) :
    ChainedDecodingQuadIterator :=
  .new (if graph_name.is_default_graph then
    st.dpos_quads (encode_term predicate)
  else
    st.gpos_quads (encode_term_pair graph_name predicate))

/-- `Storage::quads_for_predicate_object_graph`. -/
def quads_for_predicate_object_graph (st : Storage)
    (predicate object graph_name : EncodedTerm) : ChainedDecodingQuadIterator :=
  .new (if graph_name.is_default_graph then
    st.dpos_quads (encode_term_pair predicate object)
  else
    st.gpos_quads (encode_term_triple graph_name predicate object))

/-- `Storage::quads_for_object_graph`. -/
def quads_for_object_graph (st : Storage) (object graph_name : EncodedTerm) :
    ChainedDecodingQuadIterator :=
  .new (if graph_name.is_default_graph then
    st.dosp_quads (encode_term object)
  else
    st.gosp_quads (encode_term_pair graph_name object))

/-- `Storage::quads_for_pattern` (`storage/mod.rs` lines 169-230): the
sixteen-way dispatch on which of `s, p, o, g` are bound. -/
def quads_for_pattern (st : Storage) (subject predicate object graph_name :
    Option EncodedTerm) : ChainedDecodingQuadIterator :=
  match subject with
  | some subject =>
    match predicate with
    | some predicate =>
      match object with
      | some object =>
        match graph_name with
        | some graph_name =>
          st.quads_for_subject_predicate_object_graph subject predicate object graph_name
        | none => st.quads_for_subject_predicate_object subject predicate object
      | none =>
        match graph_name with
        | some graph_name => st.quads_for_subject_predicate_graph subject predicate graph_name
        | none => st.quads_for_subject_predicate subject predicate
    | none =>
      match object with
      | some object =>
        match graph_name with
        | some graph_name => st.quads_for_subject_object_graph subject object graph_name
        | none => st.quads_for_subject_object subject object
      | none =>
        match graph_name with
        | some graph_name => st.quads_for_subject_graph subject graph_name
        | none => st.quads_for_subject subject
  | none =>
    match predicate with
    | some predicate =>
      match object with
      | some object =>
        match graph_name with
        | some graph_name => st.quads_for_predicate_object_graph predicate object graph_name
        | none => st.quads_for_predicate_object predicate object
      | none =>
        match graph_name with
        | some graph_name => st.quads_for_predicate_graph predicate graph_name
        | none => st.quads_for_predicate predicate
    | none =>
      match object with
      | some object =>
        match graph_name with
        | some graph_name => st.quads_for_object_graph object graph_name
        | none => st.quads_for_object object
      | none =>
        match graph_name with
        | some graph_name => st.quads_for_graph graph_name
        | none => st.quads

/-- `Storage::named_graphs` (`storage/mod.rs` lines 402-406): the raw keys of
the `graphs` registry, each holding one encoded graph term. -/
def named_graphs (st : Storage) : List (Option EncodedTerm) :=
  st.graphs.map (fun k => match k with
    | [t] => some t
    | _ => none)

/-- `Storage::contains_named_graph` (`storage/mod.rs` lines 408-410). -/
def contains_named_graph (st : Storage) (graph_name : EncodedTerm) : Bool :=
  decide (encode_term graph_name ∈ st.graphs)

/-- `Storage::insert` (`storage/mod.rs` lines 460-513): write the primary
permutation (`dspo` for the default graph, `spog` for a named graph); iff it
accepted a new key, write the redundant permutations and, for a named graph,
the graph registry entry.  Returns whether the quad is new. -/
def insert (st : Storage) (quad : EncodedQuad) : Storage × Bool :=
  if quad.graph_name.is_default_graph then
    let r := treeInsert st.dspo (write_spo_quad quad)
    let st1 := { st with dspo := r.1 }
    if r.2 then
      let st2 := { st1 with dpos := (treeInsert st1.dpos (write_pos_quad quad)).1 }
      let st3 := { st2 with dosp := (treeInsert st2.dosp (write_osp_quad quad)).1 }
      (st3, r.2)
    else
      (st1, r.2)
  else
    let r := treeInsert st.spog (write_spog_quad quad)
    let st1 := { st with spog := r.1 }
    if r.2 then
      let st2 := { st1 with posg := (treeInsert st1.posg (write_posg_quad quad)).1 }
      let st3 := { st2 with ospg := (treeInsert st2.ospg (write_ospg_quad quad)).1 }
      let st4 := { st3 with gspo := (treeInsert st3.gspo (write_gspo_quad quad)).1 }
      let st5 := { st4 with gpos := (treeInsert st4.gpos (write_gpos_quad quad)).1 }
      let st6 := { st5 with gosp := (treeInsert st5.gosp (write_gosp_quad quad)).1 }
      let st7 := { st6 with graphs := (treeInsert st6.graphs (write_term quad.graph_name)).1 }
      (st7, r.2)
    else
      (st1, r.2)

/-- `Storage::remove` (`storage/mod.rs` lines 515-565): remove the primary
permutation key; iff it was present, remove the redundant permutation keys
(the graph registry entry is not touched).  Returns whether the quad was
present. -/
def remove (st : Storage) (quad : EncodedQuad) : Storage × Bool :=
  if quad.graph_name.is_default_graph then
    let r := treeRemove st.dspo (write_spo_quad quad)
    let st1 := { st with dspo := r.1 }
    if r.2 then
      let st2 := { st1 with dpos := (treeRemove st1.dpos (write_pos_quad quad)).1 }
      let st3 := { st2 with dosp := (treeRemove st2.dosp (write_osp_quad quad)).1 }
      (st3, r.2)
    else
      (st1, r.2)
  else
    let r := treeRemove st.spog (write_spog_quad quad)
    let st1 := { st with spog := r.1 }
    if r.2 then
      let st2 := { st1 with posg := (treeRemove st1.posg (write_posg_quad quad)).1 }
      let st3 := { st2 with ospg := (treeRemove st2.ospg (write_ospg_quad quad)).1 }
      let st4 := { st3 with gspo := (treeRemove st3.gspo (write_gspo_quad quad)).1 }
      let st5 := { st4 with gpos := (treeRemove st4.gpos (write_gpos_quad quad)).1 }
      let st6 := { st5 with gosp := (treeRemove st5.gosp (write_gosp_quad quad)).1 }
      (st6, r.2)
    else
      (st1, r.2)

/-- `Storage::insert_named_graph` (`storage/mod.rs` lines 567-569). -/
def insert_named_graph (st : Storage) (graph_name : EncodedTerm) : Storage × Bool :=
  let r := treeInsert st.graphs (encode_term graph_name)
  ({ st with graphs := r.1 }, r.2)

/-- The `for quad in self.quads_for_graph(..) { self.remove(&quad?)?; }` loop
shared by `clear_graph` and `remove_named_graph`: remove each decoded quad in
iteration order; a decode error (`none` item) aborts the loop, propagating the
error (`false`). -/
def removeAll : List (Option EncodedQuad) → Storage → Storage × Bool
  | [], st => (st, true)
  | none :: _, st => (st, false)
  | some q :: rest, st => removeAll rest (st.remove q).1

/-- `Storage::clear_graph` (`storage/mod.rs` lines 571-582): for the default
graph, truncate the three default-graph keyspaces; for a named graph, remove
its quads one by one (the registry entry is retained).  The boolean is `false`
when a stored key failed to decode. -/
def clear_graph (st : Storage) (graph_name : EncodedTerm) : Storage × Bool :=
  if graph_name.is_default_graph then
    ({ st with dspo := [], dpos := [], dosp := [] }, true)
  else
    removeAll (st.quads_for_graph graph_name).toList st

/-- `Storage::remove_named_graph` (`storage/mod.rs` lines 584-589): remove all
quads of the graph, then delete the registry entry; returns whether the
registry entry was present (`none` when a stored key failed to decode). -/
def remove_named_graph (st : Storage) (graph_name : EncodedTerm) :
    Storage × Option Bool :=
  match removeAll (st.quads_for_graph graph_name).toList st with
  | (st', true) =>
    let r := treeRemove st'.graphs (encode_term graph_name)
    ({ st' with graphs := r.1 }, some r.2)
  | (st', false) => (st', none)

/-- `Storage::clear` (`storage/mod.rs` lines 591-604): truncate all eleven
keyspaces, the interner included. -/
def clear (st : Storage) : Storage :=
  let _ := st
  emptyStorage

/-- `Storage::get_str` (`storage/mod.rs` lines 616-622). -/
def get_str (st : Storage) (key : Nat) : Option String :=
  st.id2str.lookup key

/-- `Storage::contains_str` (`storage/mod.rs` lines 624-626). -/
def contains_str (st : Storage) (key : Nat) : Bool :=
  (st.id2str.lookup key).isSome

/-- `Storage::insert_str` (`storage/mod.rs` lines 628-630): upsert; returns
whether the hash was absent. -/
def insert_str (st : Storage) (key : Nat) (value : String) : Storage × Bool :=
  let r := kvInsert st.id2str key value
  ({ st with id2str := r.1 }, r.2)

end Storage

/-! ### The transactional façade

`StorageTransaction` (`storage/mod.rs` lines 699-848) holds transactional
handles on the same eleven keyspaces; its state is therefore the same
`Storage` record.  Its operations are transcribed from their own source
blocks, independently of `Storage`'s. -/

namespace StorageTransaction

/-- `StorageTransaction::insert` (`storage/mod.rs` lines 714-768). -/
def insert (st : Storage) (quad : EncodedQuad) : Storage × Bool :=
  if quad.graph_name.is_default_graph then
    let r := treeInsert st.dspo (write_spo_quad quad)
    let st1 := { st with dspo := r.1 }
    if r.2 then
      let st2 := { st1 with dpos := (treeInsert st1.dpos (write_pos_quad quad)).1 }
      let st3 := { st2 with dosp := (treeInsert st2.dosp (write_osp_quad quad)).1 }
      (st3, r.2)
    else
      (st1, r.2)
  else
    let r := treeInsert st.spog (write_spog_quad quad)
    let st1 := { st with spog := r.1 }
    if r.2 then
      let st2 := { st1 with posg := (treeInsert st1.posg (write_posg_quad quad)).1 }
      let st3 := { st2 with ospg := (treeInsert st2.ospg (write_ospg_quad quad)).1 }
      let st4 := { st3 with gspo := (treeInsert st3.gspo (write_gspo_quad quad)).1 }
      let st5 := { st4 with gpos := (treeInsert st4.gpos (write_gpos_quad quad)).1 }
      let st6 := { st5 with gosp := (treeInsert st5.gosp (write_gosp_quad quad)).1 }
      let st7 := { st6 with graphs := (treeInsert st6.graphs (write_term quad.graph_name)).1 }
      (st7, r.2)
    else
      (st1, r.2)

/-- `StorageTransaction::remove` (`storage/mod.rs` lines 770-820). -/
def remove (st : Storage) (quad : EncodedQuad) : Storage × Bool :=
  if quad.graph_name.is_default_graph then
    let r := treeRemove st.dspo (write_spo_quad quad)
    let st1 := { st with dspo := r.1 }
    if r.2 then
      let st2 := { st1 with dpos := (treeRemove st1.dpos (write_pos_quad quad)).1 }
      let st3 := { st2 with dosp := (treeRemove st2.dosp (write_osp_quad quad)).1 }
      (st3, r.2)
    else
      (st1, r.2)
  else
    let r := treeRemove st.spog (write_spog_quad quad)
    let st1 := { st with spog := r.1 }
    if r.2 then
      let st2 := { st1 with posg := (treeRemove st1.posg (write_posg_quad quad)).1 }
      let st3 := { st2 with ospg := (treeRemove st2.ospg (write_ospg_quad quad)).1 }
      let st4 := { st3 with gspo := (treeRemove st3.gspo (write_gspo_quad quad)).1 }
      let st5 := { st4 with gpos := (treeRemove st4.gpos (write_gpos_quad quad)).1 }
      let st6 := { st5 with gosp := (treeRemove st5.gosp (write_gosp_quad quad)).1 }
      (st6, r.2)
    else
      (st1, r.2)

/-- `StorageTransaction::insert_named_graph` (`storage/mod.rs` lines 822-827). -/
def insert_named_graph (st : Storage) (graph_name : EncodedTerm) : Storage × Bool :=
  let r := treeInsert st.graphs (encode_term graph_name)
  ({ st with graphs := r.1 }, r.2)

/-- `StorageTransaction::get_str` (`storage/mod.rs` lines 829-835). -/
def get_str (st : Storage) (key : Nat) : Option String :=
  st.id2str.lookup key

/-- `StorageTransaction::contains_str` (`storage/mod.rs` lines 837-839):
`get(..).is_some()` on the transactional tree. -/
def contains_str (st : Storage) (key : Nat) : Bool :=
  (st.id2str.lookup key).isSome

/-- `StorageTransaction::insert_str` (`storage/mod.rs` lines 841-847). -/
def insert_str (st : Storage) (key : Nat) (value : String) : Storage × Bool :=
  let r := kvInsert st.id2str key value
  ({ st with id2str := r.1 }, r.2)

end StorageTransaction

/-! ### Transactions

`Storage::transaction` (`storage/mod.rs` lines 114-148) opens a sled
transaction over the eleven keyspaces and runs the closure on a transactional
handle.  The sled substrate is external; per the spec (§2, §4.4) its
multi-keyspace transaction commits on closure success, rolls back and surfaces
`Abort` on a closure abort, transparently re-runs the closure on a conflict,
and rolls back on a storage error.  It is modelled here with explicit state
passing and a retry budget (`none` = the conflict retry budget ran out). -/

/-- `ConflictableTransactionError` (`storage/mod.rs` lines 951-959). -/
inductive ConflictableTransactionError (E : Type _) where
  | Abort (e : E)
  | Conflict
  | Storage (err : String)
deriving DecidableEq, Repr

/-- sled's `TransactionError` as seen through the `From` impl. -/
inductive Sled2TransactionError (E : Type _) where
  | Abort (e : E)
  | Storage (err : String)
deriving DecidableEq, Repr

/-- `TransactionError` (`storage/mod.rs` lines 851-857). -/
inductive TransactionError (E : Type _) where
  | Abort (e : E)
  | Storage (err : String)
deriving DecidableEq, Repr

/-- `impl From<Sled2TransactionError<T>> for TransactionError<T>`
(`storage/mod.rs` lines 877-884). -/
def TransactionError.fromSled {E : Type _} :
    Sled2TransactionError E → TransactionError E
  | .Abort e => .Abort e
  | .Storage err => .Storage err

/-- Modelled from the spec: the sled multi-tree transaction primitive.  The
closure is state-passing over the eleven keyspaces; `fuel` bounds conflict
retries (the substrate may re-run the closure); the returned state is the
committed state on success and the unchanged pre-state on abort or storage
error (rollback). -/
def runSledTransaction {T E : Type _}
    (f : Storage → Storage × Except (ConflictableTransactionError E) T) :
    Nat → Storage → Option (Storage × Except (Sled2TransactionError E) T)
  | 0, _ => none
  | fuel + 1, st =>
    match f st with
    | (st', .ok v) => some (st', .ok v)
    | (_, .error (.Abort e)) => some (st, .error (.Abort e))
    | (_, .error .Conflict) => runSledTransaction f fuel st
    | (_, .error (.Storage err)) => some (st, .error (.Storage err))

/-- `Storage::transaction` (`storage/mod.rs` lines 114-148): run the closure
in a sled transaction spanning the eleven keyspaces and map the sled error
through `From<Sled2TransactionError>` (the `?` at line 147). -/
def Storage.transaction {T E : Type _}
    (st : Storage)
    (f : Storage → Storage × Except (ConflictableTransactionError E) T)
    (fuel : Nat) : Option (Storage × Except (TransactionError E) T) :=
  (runSledTransaction f fuel st).map (fun p =>
    (p.1, match p.2 with
      | .ok v => .ok v
      | .error e => .error (TransactionError.fromSled e)))

/-! ### Open and the version handshake

`Storage::do_open` (`storage/mod.rs` lines 54-96).  The sled default keyspace
holds only the reserved `oxversion` key (an 8-byte big-endian integer,
modelled as `Option Nat`); the quad keyspaces are the `Storage` record. -/

/-- The outcome classification of `do_open`. -/
inductive OpenError where
  | outdated (version : Nat)
  | tooRecent (version : Nat)
  | corrupt
deriving DecidableEq, Repr

/-- The state visible to `do_open`: the `oxversion` key plus the eleven
keyspaces. -/
structure OpenState where
  version : Option Nat
  storage : Storage
deriving DecidableEq, Repr

/-- `Storage::set_version` (`storage/mod.rs` lines 109-112). -/
def OpenState.set_version (d : OpenState) (version : Nat) : OpenState :=
  { d with version := some version }

/-- `Storage::ensure_version` (`storage/mod.rs` lines 98-107): read
`oxversion`; if absent, write `LATEST_STORAGE_VERSION` (the `latest`
parameter) and report it. -/
def OpenState.ensure_version (d : OpenState) (latest : Nat) : OpenState × Nat :=
  match d.version with
  | some v => (d, v)
  | none => (d.set_version latest, latest)

/-- The v0→v1 migration loop of `do_open` (`storage/mod.rs` lines 74-79):
for each stored quad, if its graph is not the default graph, insert the graph
into the registry.  A decode error (`none` item) aborts the loop (`false`). -/
def migrateQuads : List (Option EncodedQuad) → Storage → Storage × Bool
  | [], st => (st, true)
  | none :: _, st => (st, false)
  | some q :: rest, st =>
    migrateQuads rest
      (if q.graph_name.is_default_graph then st else (st.insert_named_graph q.graph_name).1)

/-- The version match of `do_open` (`storage/mod.rs` lines 85-95), in source
arm order: a guard for `version < LATEST`, then the `LATEST` literal arm,
then the catch-all. -/
def versionOutcome (latest version : Nat) : Except OpenError Unit :=
  if version < latest then .error (.outdated version)
  else if version = latest then .ok ()
  else .error (.tooRecent version)

/-- `Storage::do_open` (`storage/mod.rs` lines 54-96), after the trees are
opened: ensure the version, migrate when it is `0` (scan all quads, register
named graphs, write version `1`, flush the registry), then check the
(possibly updated) version. -/
def do_open (latest : Nat) (d : OpenState) : OpenState × Except OpenError Unit :=
  let p := d.ensure_version latest
  let d1 := p.1
  let version := p.2
  if version = 0 then
    match migrateQuads d1.storage.quads.toList d1.storage with
    | (st2, true) =>
      let d2 := OpenState.set_version { d1 with storage := st2 } 1
      (d2, versionOutcome latest 1)
    | (st2, false) => ({ d1 with storage := st2 }, .error .corrupt)
  else
    (d1, versionOutcome latest version)

/-! ### The semantic layer: stored quads, patterns, consistency -/

/-- Membership as the source defines it (§ "primary permutation"): a
default-graph quad is stored iff its `spo` key is in `dspo`; a named-graph
quad iff its `spog` key is in `spog`. -/
def memQuad (st : Storage) (q : EncodedQuad) : Prop :=
  if q.graph_name.is_default_graph then
    write_spo_quad q ∈ st.dspo
  else
    write_spog_quad q ∈ st.spog

instance (st : Storage) (q : EncodedQuad) : Decidable (memQuad st q) := by
  unfold memQuad; infer_instance

/-- The list of stored quads in scan order: the decoded `dspo` keys followed
by the decoded `gspo` keys (the two keyspaces `Storage::quads` scans). -/
def storedQuads (st : Storage) : List EncodedQuad :=
  st.dspo.filterMap (QuadEncoding.decode .Dspo) ++
    st.gspo.filterMap (QuadEncoding.decode .Gspo)

/-- A quad matches a pattern when every bound position equals the quad's
term at that position. -/
def matchesPattern (so po oo go : Option EncodedTerm) (q : EncodedQuad) : Prop :=
  so.getD q.subject = q.subject ∧ po.getD q.predicate = q.predicate ∧
    oo.getD q.object = q.object ∧ go.getD q.graph_name = q.graph_name

instance (so po oo go : Option EncodedTerm) (q : EncodedQuad) :
    Decidable (matchesPattern so po oo go q) := by
  unfold matchesPattern; infer_instance

/-- The cross-keyspace invariant every well-formed store satisfies: each tree
is duplicate-free, holds only keys of its shape (named-graph trees never hold
the default-graph marker in the graph position), and the redundant
permutations mirror the primary ones. -/
structure Consistent (st : Storage) : Prop where
  dspo_nodup : st.dspo.Nodup
  dpos_nodup : st.dpos.Nodup
  dosp_nodup : st.dosp.Nodup
  spog_nodup : st.spog.Nodup
  posg_nodup : st.posg.Nodup
  ospg_nodup : st.ospg.Nodup
  gspo_nodup : st.gspo.Nodup
  gpos_nodup : st.gpos.Nodup
  gosp_nodup : st.gosp.Nodup
  graphs_nodup : st.graphs.Nodup
  dspo_wf : ∀ k ∈ st.dspo, ∃ s p o : EncodedTerm, k = [s, p, o]
  dpos_wf : ∀ k ∈ st.dpos, ∃ a b c : EncodedTerm, k = [a, b, c]
  dosp_wf : ∀ k ∈ st.dosp, ∃ a b c : EncodedTerm, k = [a, b, c]
  spog_wf : ∀ k ∈ st.spog, ∃ s p o g : EncodedTerm,
    k = [s, p, o, g] ∧ g ≠ EncodedTerm.defaultGraph
  posg_wf : ∀ k ∈ st.posg, ∃ p o s g : EncodedTerm,
    k = [p, o, s, g] ∧ g ≠ EncodedTerm.defaultGraph
  ospg_wf : ∀ k ∈ st.ospg, ∃ o s p g : EncodedTerm,
    k = [o, s, p, g] ∧ g ≠ EncodedTerm.defaultGraph
  gspo_wf : ∀ k ∈ st.gspo, ∃ g s p o : EncodedTerm,
    k = [g, s, p, o] ∧ g ≠ EncodedTerm.defaultGraph
  gpos_wf : ∀ k ∈ st.gpos, ∃ g p o s : EncodedTerm,
    k = [g, p, o, s] ∧ g ≠ EncodedTerm.defaultGraph
  gosp_wf : ∀ k ∈ st.gosp, ∃ g o s p : EncodedTerm,
    k = [g, o, s, p] ∧ g ≠ EncodedTerm.defaultGraph
  dpos_mem : ∀ s p o : EncodedTerm, [p, o, s] ∈ st.dpos ↔ [s, p, o] ∈ st.dspo
  dosp_mem : ∀ s p o : EncodedTerm, [o, s, p] ∈ st.dosp ↔ [s, p, o] ∈ st.dspo
  posg_mem : ∀ s p o g : EncodedTerm, [p, o, s, g] ∈ st.posg ↔ [s, p, o, g] ∈ st.spog
  ospg_mem : ∀ s p o g : EncodedTerm, [o, s, p, g] ∈ st.ospg ↔ [s, p, o, g] ∈ st.spog
  gspo_mem : ∀ s p o g : EncodedTerm, [g, s, p, o] ∈ st.gspo ↔ [s, p, o, g] ∈ st.spog
  gpos_mem : ∀ s p o g : EncodedTerm, [g, p, o, s] ∈ st.gpos ↔ [s, p, o, g] ∈ st.spog
  gosp_mem : ∀ s p o g : EncodedTerm, [g, o, s, p] ∈ st.gosp ↔ [s, p, o, g] ∈ st.spog

/-- Is this keyspace one of the three default-graph keyspaces? -/
def QuadEncoding.isDefaultKeyspace : QuadEncoding → Bool
  | .Dspo | .Dpos | .Dosp => true
  | _ => false

/-- The iterator consults only a default-graph keyspace. -/
def usesOnlyDefaultSide (it : ChainedDecodingQuadIterator) : Prop :=
  it.first.encoding.isDefaultKeyspace = true ∧ it.second = none

/-- The iterator consults only a named-graph keyspace. -/
def usesOnlyNamedSide (it : ChainedDecodingQuadIterator) : Prop :=
  it.first.encoding.isDefaultKeyspace = false ∧ it.second = none

/-- The iterator chains a default-graph keyspace (drained first) before a
named-graph keyspace. -/
def usesBothSides (it : ChainedDecodingQuadIterator) : Prop :=
  it.first.encoding.isDefaultKeyspace = true ∧
    ∃ s, it.second = some s ∧ s.encoding.isDefaultKeyspace = false ∧
      it.toList = it.first.toList ++ s.toList

/-- `ChainedDecodingQuadIterator.toList` is exactly what repeatedly calling
`next` produces: the source's `next` yields the first iterator's items until
it is exhausted, then the second's. -/
theorem ChainedDecodingQuadIterator.next_toList (it : ChainedDecodingQuadIterator) :
    it.toList = (match it.next with
      | none => []
      | some (x, it') => x :: it'.toList) := by
  obtain ⟨⟨ks, e⟩, sec⟩ := it
  cases ks with
  | cons k rest =>
    simp [toList, next, DecodingQuadIterator.next, DecodingQuadIterator.toList]
  | nil =>
    cases sec with
    | none => simp [toList, next, DecodingQuadIterator.next, DecodingQuadIterator.toList]
    | some s =>
      obtain ⟨ks2, e2⟩ := s
      cases ks2 <;>
        simp [toList, next, DecodingQuadIterator.next, DecodingQuadIterator.toList]

/-! ### Decoder characterizations -/

theorem decode_dspo_iff (k : Key) (q : EncodedQuad) :
    QuadEncoding.decode .Dspo k = some q ↔
      (k = write_spo_quad q ∧ q.graph_name = EncodedTerm.defaultGraph) := by
  obtain ⟨qs, qp, qo, qg⟩ := q
  match k with
  | [] => simp [QuadEncoding.decode, write_spo_quad]
  | [a] => simp [QuadEncoding.decode, write_spo_quad]
  | [a, b] => simp [QuadEncoding.decode, write_spo_quad]
  | [a, b, c] =>
    simp only [QuadEncoding.decode, Option.some.injEq, EncodedQuad.mk.injEq,
      write_spo_quad, List.cons.injEq, and_true]
    constructor
    · rintro ⟨rfl, rfl, rfl, h⟩
      exact ⟨⟨rfl, rfl, rfl⟩, h.symm⟩
    · rintro ⟨⟨rfl, rfl, rfl⟩, h⟩
      exact ⟨rfl, rfl, rfl, h.symm⟩
  | a :: b :: c :: d :: t => simp [QuadEncoding.decode, write_spo_quad]

theorem decode_dpos_iff (k : Key) (q : EncodedQuad) :
    QuadEncoding.decode .Dpos k = some q ↔
      (k = write_pos_quad q ∧ q.graph_name = EncodedTerm.defaultGraph) := by
  obtain ⟨qs, qp, qo, qg⟩ := q
  match k with
  | [] => simp [QuadEncoding.decode, write_pos_quad]
  | [a] => simp [QuadEncoding.decode, write_pos_quad]
  | [a, b] => simp [QuadEncoding.decode, write_pos_quad]
  | [a, b, c] =>
    simp only [QuadEncoding.decode, Option.some.injEq, EncodedQuad.mk.injEq,
      write_pos_quad, List.cons.injEq, and_true]
    constructor
    · rintro ⟨rfl, rfl, rfl, h⟩
      exact ⟨⟨rfl, rfl, rfl⟩, h.symm⟩
    · rintro ⟨⟨rfl, rfl, rfl⟩, h⟩
      exact ⟨rfl, rfl, rfl, h.symm⟩
  | a :: b :: c :: d :: t => simp [QuadEncoding.decode, write_pos_quad]

theorem decode_dosp_iff (k : Key) (q : EncodedQuad) :
    QuadEncoding.decode .Dosp k = some q ↔
      (k = write_osp_quad q ∧ q.graph_name = EncodedTerm.defaultGraph) := by
  obtain ⟨qs, qp, qo, qg⟩ := q
  match k with
  | [] => simp [QuadEncoding.decode, write_osp_quad]
  | [a] => simp [QuadEncoding.decode, write_osp_quad]
  | [a, b] => simp [QuadEncoding.decode, write_osp_quad]
  | [a, b, c] =>
    simp only [QuadEncoding.decode, Option.some.injEq, EncodedQuad.mk.injEq,
      write_osp_quad, List.cons.injEq, and_true]
    constructor
    · rintro ⟨rfl, rfl, rfl, h⟩
      exact ⟨⟨rfl, rfl, rfl⟩, h.symm⟩
    · rintro ⟨⟨rfl, rfl, rfl⟩, h⟩
      exact ⟨rfl, rfl, rfl, h.symm⟩
  | a :: b :: c :: d :: t => simp [QuadEncoding.decode, write_osp_quad]

theorem decode_spog_iff (k : Key) (q : EncodedQuad) :
    QuadEncoding.decode .Spog k = some q ↔ k = write_spog_quad q := by
  obtain ⟨qs, qp, qo, qg⟩ := q
  match k with
  | [] => simp [QuadEncoding.decode, write_spog_quad]
  | [a] => simp [QuadEncoding.decode, write_spog_quad]
  | [a, b] => simp [QuadEncoding.decode, write_spog_quad]
  | [a, b, c] => simp [QuadEncoding.decode, write_spog_quad]
  | [a, b, c, d] =>
    simp only [QuadEncoding.decode, Option.some.injEq, EncodedQuad.mk.injEq,
      write_spog_quad, List.cons.injEq, and_true]
  | a :: b :: c :: d :: e :: t => simp [QuadEncoding.decode, write_spog_quad]

theorem decode_posg_iff (k : Key) (q : EncodedQuad) :
    QuadEncoding.decode .Posg k = some q ↔ k = write_posg_quad q := by
  obtain ⟨qs, qp, qo, qg⟩ := q
  match k with
  | [] => simp [QuadEncoding.decode, write_posg_quad]
  | [a] => simp [QuadEncoding.decode, write_posg_quad]
  | [a, b] => simp [QuadEncoding.decode, write_posg_quad]
  | [a, b, c] => simp [QuadEncoding.decode, write_posg_quad]
  | [a, b, c, d] =>
    simp only [QuadEncoding.decode, Option.some.injEq, EncodedQuad.mk.injEq,
      write_posg_quad, List.cons.injEq, and_true]
    tauto
  | a :: b :: c :: d :: e :: t => simp [QuadEncoding.decode, write_posg_quad]

theorem decode_ospg_iff (k : Key) (q : EncodedQuad) :
    QuadEncoding.decode .Ospg k = some q ↔ k = write_ospg_quad q := by
  obtain ⟨qs, qp, qo, qg⟩ := q
  match k with
  | [] => simp [QuadEncoding.decode, write_ospg_quad]
  | [a] => simp [QuadEncoding.decode, write_ospg_quad]
  | [a, b] => simp [QuadEncoding.decode, write_ospg_quad]
  | [a, b, c] => simp [QuadEncoding.decode, write_ospg_quad]
  | [a, b, c, d] =>
    simp only [QuadEncoding.decode, Option.some.injEq, EncodedQuad.mk.injEq,
      write_ospg_quad, List.cons.injEq, and_true]
    tauto
  | a :: b :: c :: d :: e :: t => simp [QuadEncoding.decode, write_ospg_quad]

theorem decode_gspo_iff (k : Key) (q : EncodedQuad) :
    QuadEncoding.decode .Gspo k = some q ↔ k = write_gspo_quad q := by
  obtain ⟨qs, qp, qo, qg⟩ := q
  match k with
  | [] => simp [QuadEncoding.decode, write_gspo_quad]
  | [a] => simp [QuadEncoding.decode, write_gspo_quad]
  | [a, b] => simp [QuadEncoding.decode, write_gspo_quad]
  | [a, b, c] => simp [QuadEncoding.decode, write_gspo_quad]
  | [a, b, c, d] =>
    simp only [QuadEncoding.decode, Option.some.injEq, EncodedQuad.mk.injEq,
      write_gspo_quad, List.cons.injEq, and_true]
    tauto
  | a :: b :: c :: d :: e :: t => simp [QuadEncoding.decode, write_gspo_quad]

theorem decode_gpos_iff (k : Key) (q : EncodedQuad) :
    QuadEncoding.decode .Gpos k = some q ↔ k = write_gpos_quad q := by
  obtain ⟨qs, qp, qo, qg⟩ := q
  match k with
  | [] => simp [QuadEncoding.decode, write_gpos_quad]
  | [a] => simp [QuadEncoding.decode, write_gpos_quad]
  | [a, b] => simp [QuadEncoding.decode, write_gpos_quad]
  | [a, b, c] => simp [QuadEncoding.decode, write_gpos_quad]
  | [a, b, c, d] =>
    simp only [QuadEncoding.decode, Option.some.injEq, EncodedQuad.mk.injEq,
      write_gpos_quad, List.cons.injEq, and_true]
    tauto
  | a :: b :: c :: d :: e :: t => simp [QuadEncoding.decode, write_gpos_quad]

theorem decode_gosp_iff (k : Key) (q : EncodedQuad) :
    QuadEncoding.decode .Gosp k = some q ↔ k = write_gosp_quad q := by
  obtain ⟨qs, qp, qo, qg⟩ := q
  match k with
  | [] => simp [QuadEncoding.decode, write_gosp_quad]
  | [a] => simp [QuadEncoding.decode, write_gosp_quad]
  | [a, b] => simp [QuadEncoding.decode, write_gosp_quad]
  | [a, b, c] => simp [QuadEncoding.decode, write_gosp_quad]
  | [a, b, c, d] =>
    simp only [QuadEncoding.decode, Option.some.injEq, EncodedQuad.mk.injEq,
      write_gosp_quad, List.cons.injEq, and_true]
    tauto
  | a :: b :: c :: d :: e :: t => simp [QuadEncoding.decode, write_gosp_quad]

/-! ### Prefix and scan lemmas -/

theorem keyHasPre_nil {α : Type _} [DecidableEq α] (l : List α) :
    keyHasPre [] l = true := rfl

theorem keyHasPre_cons_iff {α : Type _} [DecidableEq α] (a : α) (as b bs) :
    keyHasPre (a :: as) (b :: bs) = true ↔ (a = b ∧ keyHasPre as bs = true) := by
  by_cases h : a = b <;> simp [keyHasPre, h]

/-- If every element of the list decodes, mapping the decoder equals mapping
`some` over the successful decodes. -/
theorem map_eq_filterMap_map_some {α β : Type _} (f : α → Option β) :
    ∀ l : List α, (∀ a ∈ l, (f a).isSome) →
      l.map f = (l.filterMap f).map some
  | [], _ => rfl
  | a :: l, h => by
    have ha := h a (List.mem_cons_self a l)
    obtain ⟨b, hb⟩ := Option.isSome_iff_exists.mp ha
    simp only [List.map_cons, List.filterMap_cons, hb, List.map_cons]
    rw [map_eq_filterMap_map_some f l (fun x hx => h x (List.mem_cons_of_mem a hx))]

/-- The successful decodes of one tree scan. -/
def scanQuads (t : List Key) (pre : Key) (enc : QuadEncoding) : List EncodedQuad :=
  (treeScan t pre).filterMap enc.decode

/-- If every key of the tree decodes, a scanning iterator's item list is the
`some`-image of its successful decodes. -/
theorem toList_inner_quads (t : List Key) (pre : Key) (enc : QuadEncoding)
    (h : ∀ k ∈ t, (enc.decode k).isSome) :
    (Storage.inner_quads t pre enc).toList = (scanQuads t pre enc).map some := by
  unfold Storage.inner_quads DecodingQuadIterator.toList scanQuads
  exact map_eq_filterMap_map_some _ _
    (fun k hk => h k (List.mem_filter.mp hk).1)

theorem scanQuads_nodup (t : List Key) (pre : Key) (enc : QuadEncoding)
    (ht : t.Nodup)
    (hinj : ∀ k k' q, enc.decode k = some q → enc.decode k' = some q → k = k') :
    (scanQuads t pre enc).Nodup := by
  refine List.Nodup.filterMap ?_ (ht.filter _)
  intro k k' q hk hk'
  exact hinj k k' q hk hk'

theorem mem_scanQuads_iff (t : List Key) (pre : Key) (enc : QuadEncoding)
    (q : EncodedQuad) :
    q ∈ scanQuads t pre enc ↔
      ∃ k, k ∈ t ∧ keyHasPre pre k = true ∧ enc.decode k = some q := by
  simp only [scanQuads, treeScan, List.mem_filterMap, List.mem_filter]
  constructor
  · rintro ⟨k, ⟨hk, hp⟩, hd⟩
    exact ⟨k, hk, hp, hd⟩
  · rintro ⟨k, hk, hp, hd⟩
    exact ⟨k, ⟨hk, hp⟩, hd⟩

/-! Membership in each tree's scan, characterised through the quad's key.
The three default-graph trees force the decoded quad's graph to be the
default; the six named-graph trees decode to the key's own graph term. -/

theorem mem_scanQuads_dspo (st : Storage) (pre : Key) (q : EncodedQuad) :
    q ∈ scanQuads st.dspo pre .Dspo ↔
      (q.graph_name = EncodedTerm.defaultGraph ∧ write_spo_quad q ∈ st.dspo ∧
        keyHasPre pre (write_spo_quad q) = true) := by
  rw [mem_scanQuads_iff]
  constructor
  · rintro ⟨k, hk, hp, hd⟩
    obtain ⟨rfl, hg⟩ := (decode_dspo_iff k q).mp hd
    exact ⟨hg, hk, hp⟩
  · rintro ⟨hg, hk, hp⟩
    exact ⟨write_spo_quad q, hk, hp, (decode_dspo_iff _ _).mpr ⟨rfl, hg⟩⟩

theorem mem_scanQuads_dpos (st : Storage) (pre : Key) (q : EncodedQuad) :
    q ∈ scanQuads st.dpos pre .Dpos ↔
      (q.graph_name = EncodedTerm.defaultGraph ∧ write_pos_quad q ∈ st.dpos ∧
        keyHasPre pre (write_pos_quad q) = true) := by
  rw [mem_scanQuads_iff]
  constructor
  · rintro ⟨k, hk, hp, hd⟩
    obtain ⟨rfl, hg⟩ := (decode_dpos_iff k q).mp hd
    exact ⟨hg, hk, hp⟩
  · rintro ⟨hg, hk, hp⟩
    exact ⟨write_pos_quad q, hk, hp, (decode_dpos_iff _ _).mpr ⟨rfl, hg⟩⟩

theorem mem_scanQuads_dosp (st : Storage) (pre : Key) (q : EncodedQuad) :
    q ∈ scanQuads st.dosp pre .Dosp ↔
      (q.graph_name = EncodedTerm.defaultGraph ∧ write_osp_quad q ∈ st.dosp ∧
        keyHasPre pre (write_osp_quad q) = true) := by
  rw [mem_scanQuads_iff]
  constructor
  · rintro ⟨k, hk, hp, hd⟩
    obtain ⟨rfl, hg⟩ := (decode_dosp_iff k q).mp hd
    exact ⟨hg, hk, hp⟩
  · rintro ⟨hg, hk, hp⟩
    exact ⟨write_osp_quad q, hk, hp, (decode_dosp_iff _ _).mpr ⟨rfl, hg⟩⟩

theorem mem_scanQuads_spog (st : Storage) (pre : Key) (q : EncodedQuad) :
    q ∈ scanQuads st.spog pre .Spog ↔
      (write_spog_quad q ∈ st.spog ∧ keyHasPre pre (write_spog_quad q) = true) := by
  rw [mem_scanQuads_iff]
  constructor
  · rintro ⟨k, hk, hp, hd⟩
    obtain rfl := (decode_spog_iff k q).mp hd
    exact ⟨hk, hp⟩
  · rintro ⟨hk, hp⟩
    exact ⟨write_spog_quad q, hk, hp, (decode_spog_iff _ _).mpr rfl⟩

theorem mem_scanQuads_posg (st : Storage) (pre : Key) (q : EncodedQuad) :
    q ∈ scanQuads st.posg pre .Posg ↔
      (write_posg_quad q ∈ st.posg ∧ keyHasPre pre (write_posg_quad q) = true) := by
  rw [mem_scanQuads_iff]
  constructor
  · rintro ⟨k, hk, hp, hd⟩
    obtain rfl := (decode_posg_iff k q).mp hd
    exact ⟨hk, hp⟩
  · rintro ⟨hk, hp⟩
    exact ⟨write_posg_quad q, hk, hp, (decode_posg_iff _ _).mpr rfl⟩

theorem mem_scanQuads_ospg (st : Storage) (pre : Key) (q : EncodedQuad) :
    q ∈ scanQuads st.ospg pre .Ospg ↔
      (write_ospg_quad q ∈ st.ospg ∧ keyHasPre pre (write_ospg_quad q) = true) := by
  rw [mem_scanQuads_iff]
  constructor
  · rintro ⟨k, hk, hp, hd⟩
    obtain rfl := (decode_ospg_iff k q).mp hd
    exact ⟨hk, hp⟩
  · rintro ⟨hk, hp⟩
    exact ⟨write_ospg_quad q, hk, hp, (decode_ospg_iff _ _).mpr rfl⟩

theorem mem_scanQuads_gspo (st : Storage) (pre : Key) (q : EncodedQuad) :
    q ∈ scanQuads st.gspo pre .Gspo ↔
      (write_gspo_quad q ∈ st.gspo ∧ keyHasPre pre (write_gspo_quad q) = true) := by
  rw [mem_scanQuads_iff]
  constructor
  · rintro ⟨k, hk, hp, hd⟩
    obtain rfl := (decode_gspo_iff k q).mp hd
    exact ⟨hk, hp⟩
  · rintro ⟨hk, hp⟩
    exact ⟨write_gspo_quad q, hk, hp, (decode_gspo_iff _ _).mpr rfl⟩

theorem mem_scanQuads_gpos (st : Storage) (pre : Key) (q : EncodedQuad) :
    q ∈ scanQuads st.gpos pre .Gpos ↔
      (write_gpos_quad q ∈ st.gpos ∧ keyHasPre pre (write_gpos_quad q) = true) := by
  rw [mem_scanQuads_iff]
  constructor
  · rintro ⟨k, hk, hp, hd⟩
    obtain rfl := (decode_gpos_iff k q).mp hd
    exact ⟨hk, hp⟩
  · rintro ⟨hk, hp⟩
    exact ⟨write_gpos_quad q, hk, hp, (decode_gpos_iff _ _).mpr rfl⟩

theorem mem_scanQuads_gosp (st : Storage) (pre : Key) (q : EncodedQuad) :
    q ∈ scanQuads st.gosp pre .Gosp ↔
      (write_gosp_quad q ∈ st.gosp ∧ keyHasPre pre (write_gosp_quad q) = true) := by
  rw [mem_scanQuads_iff]
  constructor
  · rintro ⟨k, hk, hp, hd⟩
    obtain rfl := (decode_gosp_iff k q).mp hd
    exact ⟨hk, hp⟩
  · rintro ⟨hk, hp⟩
    exact ⟨write_gosp_quad q, hk, hp, (decode_gosp_iff _ _).mpr rfl⟩

/-! ### Consequences of consistency -/

theorem is_default_graph_iff (t : EncodedTerm) :
    t.is_default_graph = true ↔ t = EncodedTerm.defaultGraph := by
  cases t <;> simp [EncodedTerm.is_default_graph]

theorem treeScan_nil_pre (t : List Key) : treeScan t [] = t :=
  List.filter_eq_self.mpr (fun _ _ => rfl)

theorem toList_pair (a b : DecodingQuadIterator) :
    (ChainedDecodingQuadIterator.pair a b).toList = a.toList ++ b.toList := rfl

theorem toList_new (a : DecodingQuadIterator) :
    (ChainedDecodingQuadIterator.new a).toList = a.toList := by
  simp [ChainedDecodingQuadIterator.toList, ChainedDecodingQuadIterator.new]

section ConsistentFacts

variable {st : Storage}

theorem isSome_decode_dspo (hc : Consistent st) : ∀ k ∈ st.dspo, (QuadEncoding.decode .Dspo k).isSome :=
  fun k hk => by obtain ⟨s, p, o, rfl⟩ := hc.dspo_wf k hk; rfl

theorem isSome_decode_dpos (hc : Consistent st) : ∀ k ∈ st.dpos, (QuadEncoding.decode .Dpos k).isSome :=
  fun k hk => by obtain ⟨a, b, c, rfl⟩ := hc.dpos_wf k hk; rfl

theorem isSome_decode_dosp (hc : Consistent st) : ∀ k ∈ st.dosp, (QuadEncoding.decode .Dosp k).isSome :=
  fun k hk => by obtain ⟨a, b, c, rfl⟩ := hc.dosp_wf k hk; rfl

theorem isSome_decode_spog (hc : Consistent st) : ∀ k ∈ st.spog, (QuadEncoding.decode .Spog k).isSome :=
  fun k hk => by obtain ⟨s, p, o, g, rfl, -⟩ := hc.spog_wf k hk; rfl

theorem isSome_decode_posg (hc : Consistent st) : ∀ k ∈ st.posg, (QuadEncoding.decode .Posg k).isSome :=
  fun k hk => by obtain ⟨p, o, s, g, rfl, -⟩ := hc.posg_wf k hk; rfl

theorem isSome_decode_ospg (hc : Consistent st) : ∀ k ∈ st.ospg, (QuadEncoding.decode .Ospg k).isSome :=
  fun k hk => by obtain ⟨o, s, p, g, rfl, -⟩ := hc.ospg_wf k hk; rfl

theorem isSome_decode_gspo (hc : Consistent st) : ∀ k ∈ st.gspo, (QuadEncoding.decode .Gspo k).isSome :=
  fun k hk => by obtain ⟨g, s, p, o, rfl, -⟩ := hc.gspo_wf k hk; rfl

theorem isSome_decode_gpos (hc : Consistent st) : ∀ k ∈ st.gpos, (QuadEncoding.decode .Gpos k).isSome :=
  fun k hk => by obtain ⟨g, p, o, s, rfl, -⟩ := hc.gpos_wf k hk; rfl

theorem isSome_decode_gosp (hc : Consistent st) : ∀ k ∈ st.gosp, (QuadEncoding.decode .Gosp k).isSome :=
  fun k hk => by obtain ⟨g, o, s, p, rfl, -⟩ := hc.gosp_wf k hk; rfl

theorem spog_key_ne_default (hc : Consistent st) (q : EncodedQuad) :
    write_spog_quad q ∈ st.spog → q.graph_name ≠ EncodedTerm.defaultGraph := by
  intro hmem
  obtain ⟨s, p, o, g, heq, hg⟩ := hc.spog_wf _ hmem
  simp only [write_spog_quad, List.cons.injEq, and_true] at heq
  rw [heq.2.2.2]
  exact hg

theorem posg_key_ne_default (hc : Consistent st) (q : EncodedQuad) :
    write_posg_quad q ∈ st.posg → q.graph_name ≠ EncodedTerm.defaultGraph := by
  intro hmem
  obtain ⟨p, o, s, g, heq, hg⟩ := hc.posg_wf _ hmem
  simp only [write_posg_quad, List.cons.injEq, and_true] at heq
  rw [heq.2.2.2]
  exact hg

theorem ospg_key_ne_default (hc : Consistent st) (q : EncodedQuad) :
    write_ospg_quad q ∈ st.ospg → q.graph_name ≠ EncodedTerm.defaultGraph := by
  intro hmem
  obtain ⟨o, s, p, g, heq, hg⟩ := hc.ospg_wf _ hmem
  simp only [write_ospg_quad, List.cons.injEq, and_true] at heq
  rw [heq.2.2.2]
  exact hg

theorem gspo_key_ne_default (hc : Consistent st) (q : EncodedQuad) :
    write_gspo_quad q ∈ st.gspo → q.graph_name ≠ EncodedTerm.defaultGraph := by
  intro hmem
  obtain ⟨g, s, p, o, heq, hg⟩ := hc.gspo_wf _ hmem
  simp only [write_gspo_quad, List.cons.injEq, and_true] at heq
  rw [heq.1]
  exact hg

theorem gpos_key_ne_default (hc : Consistent st) (q : EncodedQuad) :
    write_gpos_quad q ∈ st.gpos → q.graph_name ≠ EncodedTerm.defaultGraph := by
  intro hmem
  obtain ⟨g, p, o, s, heq, hg⟩ := hc.gpos_wf _ hmem
  simp only [write_gpos_quad, List.cons.injEq, and_true] at heq
  rw [heq.1]
  exact hg

theorem gosp_key_ne_default (hc : Consistent st) (q : EncodedQuad) :
    write_gosp_quad q ∈ st.gosp → q.graph_name ≠ EncodedTerm.defaultGraph := by
  intro hmem
  obtain ⟨g, o, s, p, heq, hg⟩ := hc.gosp_wf _ hmem
  simp only [write_gosp_quad, List.cons.injEq, and_true] at heq
  rw [heq.1]
  exact hg

theorem mem_pos_key (hc : Consistent st) (q : EncodedQuad) :
    write_pos_quad q ∈ st.dpos ↔ write_spo_quad q ∈ st.dspo :=
  hc.dpos_mem q.subject q.predicate q.object

theorem mem_osp_key (hc : Consistent st) (q : EncodedQuad) :
    write_osp_quad q ∈ st.dosp ↔ write_spo_quad q ∈ st.dspo :=
  hc.dosp_mem q.subject q.predicate q.object

theorem mem_posg_key (hc : Consistent st) (q : EncodedQuad) :
    write_posg_quad q ∈ st.posg ↔ write_spog_quad q ∈ st.spog :=
  hc.posg_mem q.subject q.predicate q.object q.graph_name

theorem mem_ospg_key (hc : Consistent st) (q : EncodedQuad) :
    write_ospg_quad q ∈ st.ospg ↔ write_spog_quad q ∈ st.spog :=
  hc.ospg_mem q.subject q.predicate q.object q.graph_name

theorem mem_gspo_key (hc : Consistent st) (q : EncodedQuad) :
    write_gspo_quad q ∈ st.gspo ↔ write_spog_quad q ∈ st.spog :=
  hc.gspo_mem q.subject q.predicate q.object q.graph_name

theorem mem_gpos_key (hc : Consistent st) (q : EncodedQuad) :
    write_gpos_quad q ∈ st.gpos ↔ write_spog_quad q ∈ st.spog :=
  hc.gpos_mem q.subject q.predicate q.object q.graph_name

theorem mem_gosp_key (hc : Consistent st) (q : EncodedQuad) :
    write_gosp_quad q ∈ st.gosp ↔ write_spog_quad q ∈ st.spog :=
  hc.gosp_mem q.subject q.predicate q.object q.graph_name

theorem storedQuads_eq :
    storedQuads st = scanQuads st.dspo [] .Dspo ++ scanQuads st.gspo [] .Gspo := by
  unfold storedQuads scanQuads
  rw [treeScan_nil_pre, treeScan_nil_pre]

theorem mem_storedQuads (hc : Consistent st) (q : EncodedQuad) :
    q ∈ storedQuads st ↔ memQuad st q := by
  rw [storedQuads_eq, List.mem_append, mem_scanQuads_dspo, mem_scanQuads_gspo]
  by_cases hg : q.graph_name = EncodedTerm.defaultGraph
  · have hns : write_gspo_quad q ∉ st.gspo :=
      fun h => gspo_key_ne_default hc q h hg
    simp [memQuad, hg, EncodedTerm.is_default_graph, hns, keyHasPre_nil]
  · simp [memQuad, hg, is_default_graph_iff, keyHasPre_nil, mem_gspo_key hc q]

theorem memQuad_default {q : EncodedQuad}
    (hg : q.graph_name = EncodedTerm.defaultGraph) :
    memQuad st q ↔ write_spo_quad q ∈ st.dspo := by
  simp [memQuad, hg, EncodedTerm.is_default_graph]

theorem memQuad_named {q : EncodedQuad}
    (hg : q.graph_name ≠ EncodedTerm.defaultGraph) :
    memQuad st q ↔ write_spog_quad q ∈ st.spog := by
  simp [memQuad, hg, is_default_graph_iff]

end ConsistentFacts

/-- Assembling a chained iterator's specification from the specifications of
its default-graph side and its named-graph side. -/
theorem pair_side_spec (st : Storage) (it : ChainedDecodingQuadIterator)
    (l1 l2 : List EncodedQuad) (P : EncodedQuad → Prop)
    (h1 : it.toList = l1.map some ++ l2.map some)
    (hn1 : l1.Nodup) (hn2 : l2.Nodup)
    (hm1 : ∀ q, q ∈ l1 ↔ (q ∈ storedQuads st ∧ P q ∧
      q.graph_name = EncodedTerm.defaultGraph))
    (hm2 : ∀ q, q ∈ l2 ↔ (q ∈ storedQuads st ∧ P q ∧
      q.graph_name ≠ EncodedTerm.defaultGraph)) :
    ∃ l : List EncodedQuad, it.toList = l.map some ∧ l.Nodup ∧
      ∀ q, q ∈ l ↔ (q ∈ storedQuads st ∧ P q) := by
  refine ⟨l1 ++ l2, by rw [h1, List.map_append], ?_, ?_⟩
  · refine hn1.append hn2 ?_
    intro a ha1 ha2
    exact ((hm2 a).mp ha2).2.2 ((hm1 a).mp ha1).2.2
  · intro q
    rw [List.mem_append, hm1, hm2]
    by_cases hg : q.graph_name = EncodedTerm.defaultGraph <;> simp [hg]

theorem quads_for_subject_spec (st : Storage) (hc : Consistent st) (s : EncodedTerm) :
    ∃ l : List EncodedQuad,
      (st.quads_for_subject s).toList = l.map some ∧ l.Nodup ∧
      ∀ q, q ∈ l ↔ (q ∈ storedQuads st ∧ matchesPattern (some s) none none none q) := by
  apply pair_side_spec st _ (scanQuads st.dspo (encode_term s) .Dspo)
    (scanQuads st.spog (encode_term s) .Spog)
  · unfold Storage.quads_for_subject Storage.dspo_quads Storage.spog_quads
    rw [toList_pair, toList_inner_quads _ _ _ (isSome_decode_dspo hc),
      toList_inner_quads _ _ _ (isSome_decode_spog hc)]
  · exact scanQuads_nodup _ _ _ hc.dspo_nodup (fun k k' q hk hk' => by
      rw [decode_dspo_iff] at hk hk'; rw [hk.1, hk'.1])
  · exact scanQuads_nodup _ _ _ hc.spog_nodup (fun k k' q hk hk' => by
      rw [decode_spog_iff] at hk hk'; rw [hk, hk'])
  · intro q
    rw [mem_scanQuads_dspo, mem_storedQuads hc]
    by_cases hg : q.graph_name = EncodedTerm.defaultGraph
    · rw [memQuad_default hg]
      simp [hg, matchesPattern, encode_term, write_spo_quad, keyHasPre_cons_iff,
        keyHasPre_nil]
    · simp [hg]
  · intro q
    rw [mem_scanQuads_spog, mem_storedQuads hc]
    by_cases hg : q.graph_name = EncodedTerm.defaultGraph
    · have hns : write_spog_quad q ∉ st.spog := fun h => spog_key_ne_default hc q h hg
      simp [hns, hg]
    · rw [memQuad_named hg]
      simp [hg, matchesPattern, encode_term, write_spog_quad, keyHasPre_cons_iff,
        keyHasPre_nil]

theorem quads_spec (st : Storage) (hc : Consistent st) :
    ∃ l : List EncodedQuad,
      st.quads.toList = l.map some ∧ l.Nodup ∧
      ∀ q, q ∈ l ↔ (q ∈ storedQuads st ∧ matchesPattern none none none none q) := by
  apply pair_side_spec st _ (scanQuads st.dspo [] .Dspo) (scanQuads st.gspo [] .Gspo)
  · unfold Storage.quads Storage.dspo_quads Storage.gspo_quads
    rw [toList_pair, toList_inner_quads _ _ _ (isSome_decode_dspo hc),
      toList_inner_quads _ _ _ (isSome_decode_gspo hc)]
  · exact scanQuads_nodup _ _ _ hc.dspo_nodup (fun k k' q hk hk' => by
      rw [decode_dspo_iff] at hk hk'; rw [hk.1, hk'.1])
  · exact scanQuads_nodup _ _ _ hc.gspo_nodup (fun k k' q hk hk' => by
      rw [decode_gspo_iff] at hk hk'; rw [hk, hk'])
  · intro q
    rw [mem_scanQuads_dspo, mem_storedQuads hc]
    by_cases hg : q.graph_name = EncodedTerm.defaultGraph
    · rw [memQuad_default hg]
      simp [hg, matchesPattern, keyHasPre_nil]
    · simp [hg]
  · intro q
    rw [mem_scanQuads_gspo, mem_storedQuads hc]
    by_cases hg : q.graph_name = EncodedTerm.defaultGraph
    · have hns : write_gspo_quad q ∉ st.gspo := fun h => gspo_key_ne_default hc q h hg
      simp [hns, hg]
    · rw [mem_gspo_key hc q, memQuad_named hg]
      simp [hg, matchesPattern, keyHasPre_nil]

theorem quads_for_subject_predicate_spec (st : Storage) (hc : Consistent st)
    (s p : EncodedTerm) :
    ∃ l : List EncodedQuad,
      (st.quads_for_subject_predicate s p).toList = l.map some ∧ l.Nodup ∧
      ∀ q, q ∈ l ↔ (q ∈ storedQuads st ∧
        matchesPattern (some s) (some p) none none q) := by
  apply pair_side_spec st _ (scanQuads st.dspo (encode_term_pair s p) .Dspo)
    (scanQuads st.spog (encode_term_pair s p) .Spog)
  · unfold Storage.quads_for_subject_predicate Storage.dspo_quads Storage.spog_quads
    rw [toList_pair, toList_inner_quads _ _ _ (isSome_decode_dspo hc),
      toList_inner_quads _ _ _ (isSome_decode_spog hc)]
  · exact scanQuads_nodup _ _ _ hc.dspo_nodup (fun k k' q hk hk' => by
      rw [decode_dspo_iff] at hk hk'; rw [hk.1, hk'.1])
  · exact scanQuads_nodup _ _ _ hc.spog_nodup (fun k k' q hk hk' => by
      rw [decode_spog_iff] at hk hk'; rw [hk, hk'])
  · intro q
    rw [mem_scanQuads_dspo, mem_storedQuads hc]
    by_cases hg : q.graph_name = EncodedTerm.defaultGraph
    · rw [memQuad_default hg]
      simp [hg, matchesPattern, encode_term_pair, write_spo_quad, keyHasPre_cons_iff,
        keyHasPre_nil]
    · simp [hg]
  · intro q
    rw [mem_scanQuads_spog, mem_storedQuads hc]
    by_cases hg : q.graph_name = EncodedTerm.defaultGraph
    · have hns : write_spog_quad q ∉ st.spog := fun h => spog_key_ne_default hc q h hg
      simp [hns, hg]
    · rw [memQuad_named hg]
      simp [hg, matchesPattern, encode_term_pair, write_spog_quad, keyHasPre_cons_iff,
        keyHasPre_nil]

theorem quads_for_subject_predicate_object_spec (st : Storage) (hc : Consistent st)
    (s p o : EncodedTerm) :
    ∃ l : List EncodedQuad,
      (st.quads_for_subject_predicate_object s p o).toList = l.map some ∧ l.Nodup ∧
      ∀ q, q ∈ l ↔ (q ∈ storedQuads st ∧
        matchesPattern (some s) (some p) (some o) none q) := by
  apply pair_side_spec st _ (scanQuads st.dspo (encode_term_triple s p o) .Dspo)
    (scanQuads st.spog (encode_term_triple s p o) .Spog)
  · unfold Storage.quads_for_subject_predicate_object Storage.dspo_quads
      Storage.spog_quads
    rw [toList_pair, toList_inner_quads _ _ _ (isSome_decode_dspo hc),
      toList_inner_quads _ _ _ (isSome_decode_spog hc)]
  · exact scanQuads_nodup _ _ _ hc.dspo_nodup (fun k k' q hk hk' => by
      rw [decode_dspo_iff] at hk hk'; rw [hk.1, hk'.1])
  · exact scanQuads_nodup _ _ _ hc.spog_nodup (fun k k' q hk hk' => by
      rw [decode_spog_iff] at hk hk'; rw [hk, hk'])
  · intro q
    rw [mem_scanQuads_dspo, mem_storedQuads hc]
    by_cases hg : q.graph_name = EncodedTerm.defaultGraph
    · rw [memQuad_default hg]
      simp [hg, matchesPattern, encode_term_triple, write_spo_quad, keyHasPre_cons_iff,
        keyHasPre_nil]
    · simp [hg]
  · intro q
    rw [mem_scanQuads_spog, mem_storedQuads hc]
    by_cases hg : q.graph_name = EncodedTerm.defaultGraph
    · have hns : write_spog_quad q ∉ st.spog := fun h => spog_key_ne_default hc q h hg
      simp [hns, hg]
    · rw [memQuad_named hg]
      simp [hg, matchesPattern, encode_term_triple, write_spog_quad, keyHasPre_cons_iff,
        keyHasPre_nil]

theorem quads_for_subject_object_spec (st : Storage) (hc : Consistent st)
    (s o : EncodedTerm) :
    ∃ l : List EncodedQuad,
      (st.quads_for_subject_object s o).toList = l.map some ∧ l.Nodup ∧
      ∀ q, q ∈ l ↔ (q ∈ storedQuads st ∧
        matchesPattern (some s) none (some o) none q) := by
  apply pair_side_spec st _ (scanQuads st.dosp (encode_term_pair o s) .Dosp)
    (scanQuads st.ospg (encode_term_pair o s) .Ospg)
  · unfold Storage.quads_for_subject_object Storage.dosp_quads Storage.ospg_quads
    rw [toList_pair, toList_inner_quads _ _ _ (isSome_decode_dosp hc),
      toList_inner_quads _ _ _ (isSome_decode_ospg hc)]
  · exact scanQuads_nodup _ _ _ hc.dosp_nodup (fun k k' q hk hk' => by
      rw [decode_dosp_iff] at hk hk'; rw [hk.1, hk'.1])
  · exact scanQuads_nodup _ _ _ hc.ospg_nodup (fun k k' q hk hk' => by
      rw [decode_ospg_iff] at hk hk'; rw [hk, hk'])
  · intro q
    rw [mem_scanQuads_dosp, mem_osp_key hc q, mem_storedQuads hc]
    by_cases hg : q.graph_name = EncodedTerm.defaultGraph
    · rw [memQuad_default hg]
      simp [hg, matchesPattern, encode_term_pair, write_osp_quad, keyHasPre_cons_iff,
        keyHasPre_nil]
      tauto
    · simp [hg]
  · intro q
    rw [mem_scanQuads_ospg, mem_ospg_key hc q, mem_storedQuads hc]
    by_cases hg : q.graph_name = EncodedTerm.defaultGraph
    · have hns : write_spog_quad q ∉ st.spog := fun h => spog_key_ne_default hc q h hg
      simp [hns, hg]
    · rw [memQuad_named hg]
      simp [hg, matchesPattern, encode_term_pair, write_ospg_quad, keyHasPre_cons_iff,
        keyHasPre_nil]
      tauto

theorem quads_for_predicate_spec (st : Storage) (hc : Consistent st)
    (p : EncodedTerm) :
    ∃ l : List EncodedQuad,
      (st.quads_for_predicate p).toList = l.map some ∧ l.Nodup ∧
      ∀ q, q ∈ l ↔ (q ∈ storedQuads st ∧
        matchesPattern none (some p) none none q) := by
  apply pair_side_spec st _ (scanQuads st.dpos (encode_term p) .Dpos)
    (scanQuads st.posg (encode_term p) .Posg)
  · unfold Storage.quads_for_predicate Storage.dpos_quads Storage.posg_quads
    rw [toList_pair, toList_inner_quads _ _ _ (isSome_decode_dpos hc),
      toList_inner_quads _ _ _ (isSome_decode_posg hc)]
  · exact scanQuads_nodup _ _ _ hc.dpos_nodup (fun k k' q hk hk' => by
      rw [decode_dpos_iff] at hk hk'; rw [hk.1, hk'.1])
  · exact scanQuads_nodup _ _ _ hc.posg_nodup (fun k k' q hk hk' => by
      rw [decode_posg_iff] at hk hk'; rw [hk, hk'])
  · intro q
    rw [mem_scanQuads_dpos, mem_pos_key hc q, mem_storedQuads hc]
    by_cases hg : q.graph_name = EncodedTerm.defaultGraph
    · rw [memQuad_default hg]
      simp [hg, matchesPattern, encode_term, write_pos_quad, keyHasPre_cons_iff,
        keyHasPre_nil]
    · simp [hg]
  · intro q
    rw [mem_scanQuads_posg, mem_posg_key hc q, mem_storedQuads hc]
    by_cases hg : q.graph_name = EncodedTerm.defaultGraph
    · have hns : write_spog_quad q ∉ st.spog := fun h => spog_key_ne_default hc q h hg
      simp [hns, hg]
    · rw [memQuad_named hg]
      simp [hg, matchesPattern, encode_term, write_posg_quad, keyHasPre_cons_iff,
        keyHasPre_nil]

theorem quads_for_predicate_object_spec (st : Storage) (hc : Consistent st)
    (p o : EncodedTerm) :
    ∃ l : List EncodedQuad,
      (st.quads_for_predicate_object p o).toList = l.map some ∧ l.Nodup ∧
      ∀ q, q ∈ l ↔ (q ∈ storedQuads st ∧
        matchesPattern none (some p) (some o) none q) := by
  apply pair_side_spec st _ (scanQuads st.dpos (encode_term_pair p o) .Dpos)
    (scanQuads st.posg (encode_term_pair p o) .Posg)
  · unfold Storage.quads_for_predicate_object Storage.dpos_quads Storage.posg_quads
    rw [toList_pair, toList_inner_quads _ _ _ (isSome_decode_dpos hc),
      toList_inner_quads _ _ _ (isSome_decode_posg hc)]
  · exact scanQuads_nodup _ _ _ hc.dpos_nodup (fun k k' q hk hk' => by
      rw [decode_dpos_iff] at hk hk'; rw [hk.1, hk'.1])
  · exact scanQuads_nodup _ _ _ hc.posg_nodup (fun k k' q hk hk' => by
      rw [decode_posg_iff] at hk hk'; rw [hk, hk'])
  · intro q
    rw [mem_scanQuads_dpos, mem_pos_key hc q, mem_storedQuads hc]
    by_cases hg : q.graph_name = EncodedTerm.defaultGraph
    · rw [memQuad_default hg]
      simp [hg, matchesPattern, encode_term_pair, write_pos_quad, keyHasPre_cons_iff,
        keyHasPre_nil]
    · simp [hg]
  · intro q
    rw [mem_scanQuads_posg, mem_posg_key hc q, mem_storedQuads hc]
    by_cases hg : q.graph_name = EncodedTerm.defaultGraph
    · have hns : write_spog_quad q ∉ st.spog := fun h => spog_key_ne_default hc q h hg
      simp [hns, hg]
    · rw [memQuad_named hg]
      simp [hg, matchesPattern, encode_term_pair, write_posg_quad, keyHasPre_cons_iff,
        keyHasPre_nil]

theorem quads_for_object_spec (st : Storage) (hc : Consistent st)
    (o : EncodedTerm) :
    ∃ l : List EncodedQuad,
      (st.quads_for_object o).toList = l.map some ∧ l.Nodup ∧
      ∀ q, q ∈ l ↔ (q ∈ storedQuads st ∧
        matchesPattern none none (some o) none q) := by
  apply pair_side_spec st _ (scanQuads st.dosp (encode_term o) .Dosp)
    (scanQuads st.ospg (encode_term o) .Ospg)
  · unfold Storage.quads_for_object Storage.dosp_quads Storage.ospg_quads
    rw [toList_pair, toList_inner_quads _ _ _ (isSome_decode_dosp hc),
      toList_inner_quads _ _ _ (isSome_decode_ospg hc)]
  · exact scanQuads_nodup _ _ _ hc.dosp_nodup (fun k k' q hk hk' => by
      rw [decode_dosp_iff] at hk hk'; rw [hk.1, hk'.1])
  · exact scanQuads_nodup _ _ _ hc.ospg_nodup (fun k k' q hk hk' => by
      rw [decode_ospg_iff] at hk hk'; rw [hk, hk'])
  · intro q
    rw [mem_scanQuads_dosp, mem_osp_key hc q, mem_storedQuads hc]
    by_cases hg : q.graph_name = EncodedTerm.defaultGraph
    · rw [memQuad_default hg]
      simp [hg, matchesPattern, encode_term, write_osp_quad, keyHasPre_cons_iff,
        keyHasPre_nil]
    · simp [hg]
  · intro q
    rw [mem_scanQuads_ospg, mem_ospg_key hc q, mem_storedQuads hc]
    by_cases hg : q.graph_name = EncodedTerm.defaultGraph
    · have hns : write_spog_quad q ∉ st.spog := fun h => spog_key_ne_default hc q h hg
      simp [hns, hg]
    · rw [memQuad_named hg]
      simp [hg, matchesPattern, encode_term, write_ospg_quad, keyHasPre_cons_iff,
        keyHasPre_nil]

theorem quads_for_graph_spec (st : Storage) (hc : Consistent st) (g : EncodedTerm) :
    ∃ l : List EncodedQuad,
      (st.quads_for_graph g).toList = l.map some ∧ l.Nodup ∧
      ∀ q, q ∈ l ↔ (q ∈ storedQuads st ∧ matchesPattern none none none (some g) q) := by
  by_cases hgd : g = EncodedTerm.defaultGraph
  · subst hgd
    refine ⟨scanQuads st.dspo [] .Dspo, ?_, ?_, ?_⟩
    · have he : st.quads_for_graph EncodedTerm.defaultGraph
          = ChainedDecodingQuadIterator.new (st.dspo_quads []) := by
        simp [Storage.quads_for_graph, EncodedTerm.is_default_graph]
      rw [he, toList_new]
      unfold Storage.dspo_quads
      rw [toList_inner_quads _ _ _ (isSome_decode_dspo hc)]
    · exact scanQuads_nodup _ _ _ hc.dspo_nodup (fun k k' q hk hk' => by
        rw [decode_dspo_iff] at hk hk'; rw [hk.1, hk'.1])
    · intro q
      rw [mem_scanQuads_dspo, mem_storedQuads hc]
      by_cases hg : q.graph_name = EncodedTerm.defaultGraph
      · rw [memQuad_default hg]
        simp [hg, matchesPattern, keyHasPre_nil]
        all_goals tauto
      · have hg2 : EncodedTerm.defaultGraph ≠ q.graph_name := fun h => hg h.symm
        simp [hg, hg2, matchesPattern]
  · have hb : g.is_default_graph = false := by
      rcases g <;> first | exact absurd rfl hgd | rfl
    have he : st.quads_for_graph g
        = ChainedDecodingQuadIterator.new (st.gspo_quads (encode_term g)) := by
      simp [Storage.quads_for_graph, hb]
    refine ⟨scanQuads st.gspo (encode_term g) .Gspo, ?_, ?_, ?_⟩
    · rw [he, toList_new]
      unfold Storage.gspo_quads
      rw [toList_inner_quads _ _ _ (isSome_decode_gspo hc)]
    · exact scanQuads_nodup _ _ _ hc.gspo_nodup (fun k k' q hk hk' => by
        rw [decode_gspo_iff] at hk hk'; rw [hk, hk'])
    · intro q
      rw [mem_scanQuads_gspo, mem_gspo_key hc q, mem_storedQuads hc]
      by_cases hqg : g = q.graph_name
      · have hqd : q.graph_name ≠ EncodedTerm.defaultGraph := hqg ▸ hgd
        rw [memQuad_named hqd]
        simp [matchesPattern, encode_term, write_gspo_quad, keyHasPre_cons_iff,
          keyHasPre_nil, hqg]
        all_goals tauto
      · simp [matchesPattern, encode_term, write_gspo_quad, keyHasPre_cons_iff,
          keyHasPre_nil, hqg]

theorem quads_for_subject_graph_spec (st : Storage) (hc : Consistent st)
    (s g : EncodedTerm) :
    ∃ l : List EncodedQuad,
      (st.quads_for_subject_graph s g).toList = l.map some ∧ l.Nodup ∧
      ∀ q, q ∈ l ↔ (q ∈ storedQuads st ∧
        matchesPattern (some s) none none (some g) q) := by
  by_cases hgd : g = EncodedTerm.defaultGraph
  · subst hgd
    refine ⟨scanQuads st.dspo (encode_term s) .Dspo, ?_, ?_, ?_⟩
    · have he : st.quads_for_subject_graph s EncodedTerm.defaultGraph
          = ChainedDecodingQuadIterator.new (st.dspo_quads (encode_term s)) := by
        simp [Storage.quads_for_subject_graph, EncodedTerm.is_default_graph]
      rw [he, toList_new]
      unfold Storage.dspo_quads
      rw [toList_inner_quads _ _ _ (isSome_decode_dspo hc)]
    · exact scanQuads_nodup _ _ _ hc.dspo_nodup (fun k k' q hk hk' => by
        rw [decode_dspo_iff] at hk hk'; rw [hk.1, hk'.1])
    · intro q
      rw [mem_scanQuads_dspo, mem_storedQuads hc]
      by_cases hg : q.graph_name = EncodedTerm.defaultGraph
      · rw [memQuad_default hg]
        simp [hg, matchesPattern, encode_term, write_spo_quad, keyHasPre_cons_iff,
          keyHasPre_nil]
        all_goals tauto
      · have hg2 : EncodedTerm.defaultGraph ≠ q.graph_name := fun h => hg h.symm
        simp [hg, hg2, matchesPattern]
  · have hb : g.is_default_graph = false := by
      rcases g <;> first | exact absurd rfl hgd | rfl
    have he : st.quads_for_subject_graph s g
        = ChainedDecodingQuadIterator.new (st.gspo_quads (encode_term_pair g s)) := by
      simp [Storage.quads_for_subject_graph, hb]
    refine ⟨scanQuads st.gspo (encode_term_pair g s) .Gspo, ?_, ?_, ?_⟩
    · rw [he, toList_new]
      unfold Storage.gspo_quads
      rw [toList_inner_quads _ _ _ (isSome_decode_gspo hc)]
    · exact scanQuads_nodup _ _ _ hc.gspo_nodup (fun k k' q hk hk' => by
        rw [decode_gspo_iff] at hk hk'; rw [hk, hk'])
    · intro q
      rw [mem_scanQuads_gspo, mem_gspo_key hc q, mem_storedQuads hc]
      by_cases hqg : g = q.graph_name
      · have hqd : q.graph_name ≠ EncodedTerm.defaultGraph := hqg ▸ hgd
        rw [memQuad_named hqd]
        simp [matchesPattern, encode_term_pair, write_gspo_quad, keyHasPre_cons_iff,
          keyHasPre_nil, hqg]
        all_goals tauto
      · simp [matchesPattern, encode_term_pair, write_gspo_quad, keyHasPre_cons_iff,
          keyHasPre_nil, hqg]

theorem quads_for_subject_predicate_graph_spec (st : Storage) (hc : Consistent st)
    (s p g : EncodedTerm) :
    ∃ l : List EncodedQuad,
      (st.quads_for_subject_predicate_graph s p g).toList = l.map some ∧ l.Nodup ∧
      ∀ q, q ∈ l ↔ (q ∈ storedQuads st ∧
        matchesPattern (some s) (some p) none (some g) q) := by
  by_cases hgd : g = EncodedTerm.defaultGraph
  · subst hgd
    refine ⟨scanQuads st.dspo (encode_term_pair s p) .Dspo, ?_, ?_, ?_⟩
    · have he : st.quads_for_subject_predicate_graph s p EncodedTerm.defaultGraph
          = ChainedDecodingQuadIterator.new (st.dspo_quads (encode_term_pair s p)) := by
        simp [Storage.quads_for_subject_predicate_graph, EncodedTerm.is_default_graph]
      rw [he, toList_new]
      unfold Storage.dspo_quads
      rw [toList_inner_quads _ _ _ (isSome_decode_dspo hc)]
    · exact scanQuads_nodup _ _ _ hc.dspo_nodup (fun k k' q hk hk' => by
        rw [decode_dspo_iff] at hk hk'; rw [hk.1, hk'.1])
    · intro q
      rw [mem_scanQuads_dspo, mem_storedQuads hc]
      by_cases hg : q.graph_name = EncodedTerm.defaultGraph
      · rw [memQuad_default hg]
        simp [hg, matchesPattern, encode_term_pair, write_spo_quad, keyHasPre_cons_iff,
          keyHasPre_nil]
        all_goals tauto
      · have hg2 : EncodedTerm.defaultGraph ≠ q.graph_name := fun h => hg h.symm
        simp [hg, hg2, matchesPattern]
  · have hb : g.is_default_graph = false := by
      rcases g <;> first | exact absurd rfl hgd | rfl
    have he : st.quads_for_subject_predicate_graph s p g
        = ChainedDecodingQuadIterator.new
            (st.gspo_quads (encode_term_triple g s p)) := by
      simp [Storage.quads_for_subject_predicate_graph, hb]
    refine ⟨scanQuads st.gspo (encode_term_triple g s p) .Gspo, ?_, ?_, ?_⟩
    · rw [he, toList_new]
      unfold Storage.gspo_quads
      rw [toList_inner_quads _ _ _ (isSome_decode_gspo hc)]
    · exact scanQuads_nodup _ _ _ hc.gspo_nodup (fun k k' q hk hk' => by
        rw [decode_gspo_iff] at hk hk'; rw [hk, hk'])
    · intro q
      rw [mem_scanQuads_gspo, mem_gspo_key hc q, mem_storedQuads hc]
      by_cases hqg : g = q.graph_name
      · have hqd : q.graph_name ≠ EncodedTerm.defaultGraph := hqg ▸ hgd
        rw [memQuad_named hqd]
        simp [matchesPattern, encode_term_triple, write_gspo_quad, keyHasPre_cons_iff,
          keyHasPre_nil, hqg]
        all_goals tauto
      · simp [matchesPattern, encode_term_triple, write_gspo_quad, keyHasPre_cons_iff,
          keyHasPre_nil, hqg]

theorem quads_for_subject_predicate_object_graph_spec (st : Storage)
    (hc : Consistent st) (s p o g : EncodedTerm) :
    ∃ l : List EncodedQuad,
      (st.quads_for_subject_predicate_object_graph s p o g).toList = l.map some ∧
      l.Nodup ∧
      ∀ q, q ∈ l ↔ (q ∈ storedQuads st ∧
        matchesPattern (some s) (some p) (some o) (some g) q) := by
  by_cases hgd : g = EncodedTerm.defaultGraph
  · subst hgd
    refine ⟨scanQuads st.dspo (encode_term_triple s p o) .Dspo, ?_, ?_, ?_⟩
    · have he : st.quads_for_subject_predicate_object_graph s p o
            EncodedTerm.defaultGraph
          = ChainedDecodingQuadIterator.new
              (st.dspo_quads (encode_term_triple s p o)) := by
        simp [Storage.quads_for_subject_predicate_object_graph,
          EncodedTerm.is_default_graph]
      rw [he, toList_new]
      unfold Storage.dspo_quads
      rw [toList_inner_quads _ _ _ (isSome_decode_dspo hc)]
    · exact scanQuads_nodup _ _ _ hc.dspo_nodup (fun k k' q hk hk' => by
        rw [decode_dspo_iff] at hk hk'; rw [hk.1, hk'.1])
    · intro q
      rw [mem_scanQuads_dspo, mem_storedQuads hc]
      by_cases hg : q.graph_name = EncodedTerm.defaultGraph
      · rw [memQuad_default hg]
        simp [hg, matchesPattern, encode_term_triple, write_spo_quad,
          keyHasPre_cons_iff, keyHasPre_nil]
        all_goals tauto
      · have hg2 : EncodedTerm.defaultGraph ≠ q.graph_name := fun h => hg h.symm
        simp [hg, hg2, matchesPattern]
  · have hb : g.is_default_graph = false := by
      rcases g <;> first | exact absurd rfl hgd | rfl
    have he : st.quads_for_subject_predicate_object_graph s p o g
        = ChainedDecodingQuadIterator.new
            (st.gspo_quads (encode_term_quad g s p o)) := by
      simp [Storage.quads_for_subject_predicate_object_graph, hb]
    refine ⟨scanQuads st.gspo (encode_term_quad g s p o) .Gspo, ?_, ?_, ?_⟩
    · rw [he, toList_new]
      unfold Storage.gspo_quads
      rw [toList_inner_quads _ _ _ (isSome_decode_gspo hc)]
    · exact scanQuads_nodup _ _ _ hc.gspo_nodup (fun k k' q hk hk' => by
        rw [decode_gspo_iff] at hk hk'; rw [hk, hk'])
    · intro q
      rw [mem_scanQuads_gspo, mem_gspo_key hc q, mem_storedQuads hc]
      by_cases hqg : g = q.graph_name
      · have hqd : q.graph_name ≠ EncodedTerm.defaultGraph := hqg ▸ hgd
        rw [memQuad_named hqd]
        simp [matchesPattern, encode_term_quad, write_gspo_quad, keyHasPre_cons_iff,
          keyHasPre_nil, hqg]
        all_goals tauto
      · simp [matchesPattern, encode_term_quad, write_gspo_quad, keyHasPre_cons_iff,
          keyHasPre_nil, hqg]

theorem quads_for_subject_object_graph_spec (st : Storage) (hc : Consistent st)
    (s o g : EncodedTerm) :
    ∃ l : List EncodedQuad,
      (st.quads_for_subject_object_graph s o g).toList = l.map some ∧ l.Nodup ∧
      ∀ q, q ∈ l ↔ (q ∈ storedQuads st ∧
        matchesPattern (some s) none (some o) (some g) q) := by
  by_cases hgd : g = EncodedTerm.defaultGraph
  · subst hgd
    refine ⟨scanQuads st.dosp (encode_term_pair o s) .Dosp, ?_, ?_, ?_⟩
    · have he : st.quads_for_subject_object_graph s o EncodedTerm.defaultGraph
          = ChainedDecodingQuadIterator.new (st.dosp_quads (encode_term_pair o s)) := by
        simp [Storage.quads_for_subject_object_graph, EncodedTerm.is_default_graph]
      rw [he, toList_new]
      unfold Storage.dosp_quads
      rw [toList_inner_quads _ _ _ (isSome_decode_dosp hc)]
    · exact scanQuads_nodup _ _ _ hc.dosp_nodup (fun k k' q hk hk' => by
        rw [decode_dosp_iff] at hk hk'; rw [hk.1, hk'.1])
    · intro q
      rw [mem_scanQuads_dosp, mem_osp_key hc q, mem_storedQuads hc]
      by_cases hg : q.graph_name = EncodedTerm.defaultGraph
      · rw [memQuad_default hg]
        simp [hg, matchesPattern, encode_term_pair, write_osp_quad, keyHasPre_cons_iff,
          keyHasPre_nil]
        all_goals tauto
      · have hg2 : EncodedTerm.defaultGraph ≠ q.graph_name := fun h => hg h.symm
        simp [hg, hg2, matchesPattern]
  · have hb : g.is_default_graph = false := by
      rcases g <;> first | exact absurd rfl hgd | rfl
    have he : st.quads_for_subject_object_graph s o g
        = ChainedDecodingQuadIterator.new
            (st.gosp_quads (encode_term_triple g o s)) := by
      simp [Storage.quads_for_subject_object_graph, hb]
    refine ⟨scanQuads st.gosp (encode_term_triple g o s) .Gosp, ?_, ?_, ?_⟩
    · rw [he, toList_new]
      unfold Storage.gosp_quads
      rw [toList_inner_quads _ _ _ (isSome_decode_gosp hc)]
    · exact scanQuads_nodup _ _ _ hc.gosp_nodup (fun k k' q hk hk' => by
        rw [decode_gosp_iff] at hk hk'; rw [hk, hk'])
    · intro q
      rw [mem_scanQuads_gosp, mem_gosp_key hc q, mem_storedQuads hc]
      by_cases hqg : g = q.graph_name
      · have hqd : q.graph_name ≠ EncodedTerm.defaultGraph := hqg ▸ hgd
        rw [memQuad_named hqd]
        simp [matchesPattern, encode_term_triple, write_gosp_quad, keyHasPre_cons_iff,
          keyHasPre_nil, hqg]
        all_goals tauto
      · simp [matchesPattern, encode_term_triple, write_gosp_quad, keyHasPre_cons_iff,
          keyHasPre_nil, hqg]

theorem quads_for_predicate_graph_spec (st : Storage) (hc : Consistent st)
    (p g : EncodedTerm) :
    ∃ l : List EncodedQuad,
      (st.quads_for_predicate_graph p g).toList = l.map some ∧ l.Nodup ∧
      ∀ q, q ∈ l ↔ (q ∈ storedQuads st ∧
        matchesPattern none (some p) none (some g) q) := by
  by_cases hgd : g = EncodedTerm.defaultGraph
  · subst hgd
    refine ⟨scanQuads st.dpos (encode_term p) .Dpos, ?_, ?_, ?_⟩
    · have he : st.quads_for_predicate_graph p EncodedTerm.defaultGraph
          = ChainedDecodingQuadIterator.new (st.dpos_quads (encode_term p)) := by
        simp [Storage.quads_for_predicate_graph, EncodedTerm.is_default_graph]
      rw [he, toList_new]
      unfold Storage.dpos_quads
      rw [toList_inner_quads _ _ _ (isSome_decode_dpos hc)]
    · exact scanQuads_nodup _ _ _ hc.dpos_nodup (fun k k' q hk hk' => by
        rw [decode_dpos_iff] at hk hk'; rw [hk.1, hk'.1])
    · intro q
      rw [mem_scanQuads_dpos, mem_pos_key hc q, mem_storedQuads hc]
      by_cases hg : q.graph_name = EncodedTerm.defaultGraph
      · rw [memQuad_default hg]
        simp [hg, matchesPattern, encode_term, write_pos_quad, keyHasPre_cons_iff,
          keyHasPre_nil]
        all_goals tauto
      · have hg2 : EncodedTerm.defaultGraph ≠ q.graph_name := fun h => hg h.symm
        simp [hg, hg2, matchesPattern]
  · have hb : g.is_default_graph = false := by
      rcases g <;> first | exact absurd rfl hgd | rfl
    have he : st.quads_for_predicate_graph p g
        = ChainedDecodingQuadIterator.new
            (st.gpos_quads (encode_term_pair g p)) := by
      simp [Storage.quads_for_predicate_graph, hb]
    refine ⟨scanQuads st.gpos (encode_term_pair g p) .Gpos, ?_, ?_, ?_⟩
    · rw [he, toList_new]
      unfold Storage.gpos_quads
      rw [toList_inner_quads _ _ _ (isSome_decode_gpos hc)]
    · exact scanQuads_nodup _ _ _ hc.gpos_nodup (fun k k' q hk hk' => by
        rw [decode_gpos_iff] at hk hk'; rw [hk, hk'])
    · intro q
      rw [mem_scanQuads_gpos, mem_gpos_key hc q, mem_storedQuads hc]
      by_cases hqg : g = q.graph_name
      · have hqd : q.graph_name ≠ EncodedTerm.defaultGraph := hqg ▸ hgd
        rw [memQuad_named hqd]
        simp [matchesPattern, encode_term_pair, write_gpos_quad, keyHasPre_cons_iff,
          keyHasPre_nil, hqg]
        all_goals tauto
      · simp [matchesPattern, encode_term_pair, write_gpos_quad, keyHasPre_cons_iff,
          keyHasPre_nil, hqg]

theorem quads_for_predicate_object_graph_spec (st : Storage) (hc : Consistent st)
    (p o g : EncodedTerm) :
    ∃ l : List EncodedQuad,
      (st.quads_for_predicate_object_graph p o g).toList = l.map some ∧ l.Nodup ∧
      ∀ q, q ∈ l ↔ (q ∈ storedQuads st ∧
        matchesPattern none (some p) (some o) (some g) q) := by
  by_cases hgd : g = EncodedTerm.defaultGraph
  · subst hgd
    refine ⟨scanQuads st.dpos (encode_term_pair p o) .Dpos, ?_, ?_, ?_⟩
    · have he : st.quads_for_predicate_object_graph p o EncodedTerm.defaultGraph
          = ChainedDecodingQuadIterator.new (st.dpos_quads (encode_term_pair p o)) := by
        simp [Storage.quads_for_predicate_object_graph, EncodedTerm.is_default_graph]
      rw [he, toList_new]
      unfold Storage.dpos_quads
      rw [toList_inner_quads _ _ _ (isSome_decode_dpos hc)]
    · exact scanQuads_nodup _ _ _ hc.dpos_nodup (fun k k' q hk hk' => by
        rw [decode_dpos_iff] at hk hk'; rw [hk.1, hk'.1])
    · intro q
      rw [mem_scanQuads_dpos, mem_pos_key hc q, mem_storedQuads hc]
      by_cases hg : q.graph_name = EncodedTerm.defaultGraph
      · rw [memQuad_default hg]
        simp [hg, matchesPattern, encode_term_pair, write_pos_quad, keyHasPre_cons_iff,
          keyHasPre_nil]
        all_goals tauto
      · have hg2 : EncodedTerm.defaultGraph ≠ q.graph_name := fun h => hg h.symm
        simp [hg, hg2, matchesPattern]
  · have hb : g.is_default_graph = false := by
      rcases g <;> first | exact absurd rfl hgd | rfl
    have he : st.quads_for_predicate_object_graph p o g
        = ChainedDecodingQuadIterator.new
            (st.gpos_quads (encode_term_triple g p o)) := by
      simp [Storage.quads_for_predicate_object_graph, hb]
    refine ⟨scanQuads st.gpos (encode_term_triple g p o) .Gpos, ?_, ?_, ?_⟩
    · rw [he, toList_new]
      unfold Storage.gpos_quads
      rw [toList_inner_quads _ _ _ (isSome_decode_gpos hc)]
    · exact scanQuads_nodup _ _ _ hc.gpos_nodup (fun k k' q hk hk' => by
        rw [decode_gpos_iff] at hk hk'; rw [hk, hk'])
    · intro q
      rw [mem_scanQuads_gpos, mem_gpos_key hc q, mem_storedQuads hc]
      by_cases hqg : g = q.graph_name
      · have hqd : q.graph_name ≠ EncodedTerm.defaultGraph := hqg ▸ hgd
        rw [memQuad_named hqd]
        simp [matchesPattern, encode_term_triple, write_gpos_quad, keyHasPre_cons_iff,
          keyHasPre_nil, hqg]
        all_goals tauto
      · simp [matchesPattern, encode_term_triple, write_gpos_quad, keyHasPre_cons_iff,
          keyHasPre_nil, hqg]

theorem quads_for_object_graph_spec (st : Storage) (hc : Consistent st)
    (o g : EncodedTerm) :
    ∃ l : List EncodedQuad,
      (st.quads_for_object_graph o g).toList = l.map some ∧ l.Nodup ∧
      ∀ q, q ∈ l ↔ (q ∈ storedQuads st ∧
        matchesPattern none none (some o) (some g) q) := by
  by_cases hgd : g = EncodedTerm.defaultGraph
  · subst hgd
    refine ⟨scanQuads st.dosp (encode_term o) .Dosp, ?_, ?_, ?_⟩
    · have he : st.quads_for_object_graph o EncodedTerm.defaultGraph
          = ChainedDecodingQuadIterator.new (st.dosp_quads (encode_term o)) := by
        simp [Storage.quads_for_object_graph, EncodedTerm.is_default_graph]
      rw [he, toList_new]
      unfold Storage.dosp_quads
      rw [toList_inner_quads _ _ _ (isSome_decode_dosp hc)]
    · exact scanQuads_nodup _ _ _ hc.dosp_nodup (fun k k' q hk hk' => by
        rw [decode_dosp_iff] at hk hk'; rw [hk.1, hk'.1])
    · intro q
      rw [mem_scanQuads_dosp, mem_osp_key hc q, mem_storedQuads hc]
      by_cases hg : q.graph_name = EncodedTerm.defaultGraph
      · rw [memQuad_default hg]
        simp [hg, matchesPattern, encode_term, write_osp_quad, keyHasPre_cons_iff,
          keyHasPre_nil]
        all_goals tauto
      · have hg2 : EncodedTerm.defaultGraph ≠ q.graph_name := fun h => hg h.symm
        simp [hg, hg2, matchesPattern]
  · have hb : g.is_default_graph = false := by
      rcases g <;> first | exact absurd rfl hgd | rfl
    have he : st.quads_for_object_graph o g
        = ChainedDecodingQuadIterator.new
            (st.gosp_quads (encode_term_pair g o)) := by
      simp [Storage.quads_for_object_graph, hb]
    refine ⟨scanQuads st.gosp (encode_term_pair g o) .Gosp, ?_, ?_, ?_⟩
    · rw [he, toList_new]
      unfold Storage.gosp_quads
      rw [toList_inner_quads _ _ _ (isSome_decode_gosp hc)]
    · exact scanQuads_nodup _ _ _ hc.gosp_nodup (fun k k' q hk hk' => by
        rw [decode_gosp_iff] at hk hk'; rw [hk, hk'])
    · intro q
      rw [mem_scanQuads_gosp, mem_gosp_key hc q, mem_storedQuads hc]
      by_cases hqg : g = q.graph_name
      · have hqd : q.graph_name ≠ EncodedTerm.defaultGraph := hqg ▸ hgd
        rw [memQuad_named hqd]
        simp [matchesPattern, encode_term_pair, write_gosp_quad, keyHasPre_cons_iff,
          keyHasPre_nil, hqg]
        all_goals tauto
      · simp [matchesPattern, encode_term_pair, write_gosp_quad, keyHasPre_cons_iff,
          keyHasPre_nil, hqg]

/-- C1: for every pattern over `{s, p, o, g}` on a consistent store,
`quads_for_pattern` yields exactly the stored quads matching the binding —
no duplicates, no spurious entries, every item decoding successfully; when
`g` is bound to the default-graph marker only a default-graph keyspace is
consulted, when `g` is bound to a named graph only a named-graph keyspace is
consulted, and when `g` is unbound the iterator chains the default-graph side
before the named-graph side, the first side being fully drained before the
second by the `next` of `ChainedDecodingQuadIterator`. -/
theorem C1_quads_for_pattern_correct (st : Storage) (hc : Consistent st)
    (so po oo go : Option EncodedTerm) :
    (∃ l : List EncodedQuad,
      (st.quads_for_pattern so po oo go).toList = l.map some ∧ l.Nodup ∧
      ∀ q, q ∈ l ↔ (q ∈ storedQuads st ∧ matchesPattern so po oo go q)) ∧
    (go = some EncodedTerm.defaultGraph →
      usesOnlyDefaultSide (st.quads_for_pattern so po oo go)) ∧
    (∀ g, go = some g → g ≠ EncodedTerm.defaultGraph →
      usesOnlyNamedSide (st.quads_for_pattern so po oo go)) ∧
    (go = none → usesBothSides (st.quads_for_pattern so po oo go)) ∧
    (∀ c : ChainedDecodingQuadIterator,
      c.toList = (match c.next with
        | none => []
        | some (x, c') => x :: c'.toList)) := by
  refine ⟨?_, ?_, ?_, ?_, fun c => c.next_toList⟩
  · rcases so with _ | s <;> rcases po with _ | p <;> rcases oo with _ | o <;>
      rcases go with _ | g
    · exact quads_spec st hc
    · exact quads_for_graph_spec st hc g
    · exact quads_for_object_spec st hc o
    · exact quads_for_object_graph_spec st hc o g
    · exact quads_for_predicate_spec st hc p
    · exact quads_for_predicate_graph_spec st hc p g
    · exact quads_for_predicate_object_spec st hc p o
    · exact quads_for_predicate_object_graph_spec st hc p o g
    · exact quads_for_subject_spec st hc s
    · exact quads_for_subject_graph_spec st hc s g
    · exact quads_for_subject_object_spec st hc s o
    · exact quads_for_subject_object_graph_spec st hc s o g
    · exact quads_for_subject_predicate_spec st hc s p
    · exact quads_for_subject_predicate_graph_spec st hc s p g
    · exact quads_for_subject_predicate_object_spec st hc s p o
    · exact quads_for_subject_predicate_object_graph_spec st hc s p o g
  · rintro rfl
    rcases so with _ | s <;> rcases po with _ | p <;> rcases oo with _ | o <;>
      exact ⟨rfl, rfl⟩
  · rintro g rfl hgne
    have hb : g.is_default_graph = false := by
      rcases g <;> first | exact absurd rfl hgne | rfl
    rcases so with _ | s <;> rcases po with _ | p <;> rcases oo with _ | o <;>
      simp [usesOnlyNamedSide, Storage.quads_for_pattern, Storage.quads_for_graph,
        Storage.quads_for_subject_graph, Storage.quads_for_subject_predicate_graph,
        Storage.quads_for_subject_predicate_object_graph,
        Storage.quads_for_subject_object_graph, Storage.quads_for_predicate_graph,
        Storage.quads_for_predicate_object_graph, Storage.quads_for_object_graph,
        hb, ChainedDecodingQuadIterator.new, Storage.gspo_quads, Storage.gpos_quads,
        Storage.gosp_quads, Storage.inner_quads, QuadEncoding.isDefaultKeyspace]
  · rintro rfl
    rcases so with _ | s <;> rcases po with _ | p <;> rcases oo with _ | o <;>
      exact ⟨rfl, _, rfl, rfl, rfl⟩

/-- C2: `insert` writes the quad's key into the primary permutation keyspace
(`dspo` for a default-graph quad, `spog` for a named-graph quad); iff that key
was absent it also writes the two (default) or five (named) redundant
permutation keys and, for a named-graph quad, the graph registry entry; it
returns `true` (new) exactly when the primary permutation accepted a new key,
and changes nothing at all otherwise. -/
theorem C2_insert_spec (st : Storage) (q : EncodedQuad) :
    (q.graph_name = EncodedTerm.defaultGraph →
      write_spo_quad q ∈ (st.insert q).1.dspo ∧
      ((st.insert q).2 = true ↔ write_spo_quad q ∉ st.dspo) ∧
      ((st.insert q).2 = true →
        write_pos_quad q ∈ (st.insert q).1.dpos ∧
        write_osp_quad q ∈ (st.insert q).1.dosp) ∧
      ((st.insert q).2 = false → (st.insert q).1 = st)) ∧
    (q.graph_name ≠ EncodedTerm.defaultGraph →
      write_spog_quad q ∈ (st.insert q).1.spog ∧
      ((st.insert q).2 = true ↔ write_spog_quad q ∉ st.spog) ∧
      ((st.insert q).2 = true →
        write_posg_quad q ∈ (st.insert q).1.posg ∧
        write_ospg_quad q ∈ (st.insert q).1.ospg ∧
        write_gspo_quad q ∈ (st.insert q).1.gspo ∧
        write_gpos_quad q ∈ (st.insert q).1.gpos ∧
        write_gosp_quad q ∈ (st.insert q).1.gosp ∧
        write_term q.graph_name ∈ (st.insert q).1.graphs) ∧
      ((st.insert q).2 = false → (st.insert q).1 = st)) := by
  constructor
  · intro hg
    have hgb : q.graph_name.is_default_graph = true := (is_default_graph_iff _).mpr hg
    by_cases hmem : write_spo_quad q ∈ st.dspo
    · simp [Storage.insert, hgb, treeInsert, hmem]
    · simp [Storage.insert, hgb, treeInsert, hmem]
      split_ifs <;> simp_all
  · intro hg
    have hgb : q.graph_name.is_default_graph = false :=
      Bool.eq_false_iff.mpr (fun h => hg ((is_default_graph_iff _).mp h))
    by_cases hmem : write_spog_quad q ∈ st.spog
    · simp [Storage.insert, hgb, treeInsert, hmem]
    · simp [Storage.insert, hgb, treeInsert, hmem]
      split_ifs <;> simp_all

/-- C7: inserting a quad twice is the same as inserting it once, the second
call returning `false` (already present); removing an absent quad changes no
keyspace and returns `false`. -/
theorem C7_insert_twice_remove_absent (st : Storage) (q : EncodedQuad) :
    (Storage.insert (st.insert q).1 q = ((st.insert q).1, false)) ∧
    (¬ memQuad st q → st.remove q = (st, false)) := by
  constructor
  · by_cases hg : q.graph_name = EncodedTerm.defaultGraph
    · have hgb : q.graph_name.is_default_graph = true := (is_default_graph_iff _).mpr hg
      by_cases hmem : write_spo_quad q ∈ st.dspo
      · simp [Storage.insert, hgb, treeInsert, hmem]
      · simp [Storage.insert, hgb, treeInsert, hmem]
    · have hgb : q.graph_name.is_default_graph = false :=
        Bool.eq_false_iff.mpr (fun h => hg ((is_default_graph_iff _).mp h))
      by_cases hmem : write_spog_quad q ∈ st.spog
      · simp [Storage.insert, hgb, treeInsert, hmem]
      · simp [Storage.insert, hgb, treeInsert, hmem]
  · intro habs
    by_cases hg : q.graph_name = EncodedTerm.defaultGraph
    · have hgb : q.graph_name.is_default_graph = true := (is_default_graph_iff _).mpr hg
      rw [memQuad_default hg] at habs
      simp [Storage.remove, hgb, treeRemove, habs]
    · have hgb : q.graph_name.is_default_graph = false :=
        Bool.eq_false_iff.mpr (fun h => hg ((is_default_graph_iff _).mp h))
      rw [memQuad_named hg] at habs
      simp [Storage.remove, hgb, treeRemove, habs]

/-- C8: `len` is the number of `dspo` keys plus the number of `gspo` keys,
and `is_empty` holds exactly when both are empty, equivalently when `len`
is zero. -/
theorem C8_len_is_empty (st : Storage) :
    st.len = st.dspo.length + st.gspo.length ∧
    (st.is_empty = true ↔ (st.dspo = [] ∧ st.gspo = [])) ∧
    (st.is_empty = true ↔ st.len = 0) := by
  unfold Storage.len Storage.is_empty
  refine ⟨Nat.add_comm _ _, ?_, ?_⟩
  · rw [Bool.and_eq_true, List.isEmpty_iff, List.isEmpty_iff, and_comm]
  · rw [Bool.and_eq_true, List.isEmpty_iff, List.isEmpty_iff, Nat.add_eq_zero,
      List.length_eq_zero, List.length_eq_zero, and_comm]

/-- C9: the transactional handle implements `insert` and `remove` exactly as
the storage handle does — on every starting state and quad the keyspace
updates and the returned boolean coincide. -/
theorem C9_transaction_mirrors_storage (st : Storage) (q : EncodedQuad) :
    StorageTransaction.insert st q = Storage.insert st q ∧
    StorageTransaction.remove st q = Storage.remove st q :=
  ⟨rfl, rfl⟩

/-! ### A small concrete store for witnesses -/

/-- A concrete named node used by witnesses. -/
def tA : EncodedTerm := .namedNode "a"

/-- A concrete named node used by witnesses. -/
def tP : EncodedTerm := .namedNode "p"

/-- A concrete named node used by witnesses. -/
def tB : EncodedTerm := .namedNode "b"

/-- A concrete named graph term used by witnesses. -/
def tG : EncodedTerm := .namedNode "g"

/-- The default-graph quad `(a, p, b)` used by witnesses. -/
def qD : EncodedQuad := ⟨tA, tP, tB, .defaultGraph⟩

/-- The named-graph quad `(a, p, b, g)` used by witnesses. -/
def qN : EncodedQuad := ⟨tA, tP, tB, tG⟩

/-- A concrete store holding `qD` and `qN`, with all nine permutations and the
registry populated. -/
def exampleStore : Storage where
  id2str := []
  spog := [[tA, tP, tB, tG]]
  posg := [[tP, tB, tA, tG]]
  ospg := [[tB, tA, tP, tG]]
  gspo := [[tG, tA, tP, tB]]
  gpos := [[tG, tP, tB, tA]]
  gosp := [[tG, tB, tA, tP]]
  dspo := [[tA, tP, tB]]
  dpos := [[tP, tB, tA]]
  dosp := [[tB, tA, tP]]
  graphs := [[tG]]

theorem exampleStore_consistent : Consistent exampleStore := by
  refine ⟨?_, ?_, ?_, ?_, ?_, ?_, ?_, ?_, ?_, ?_, ?_, ?_, ?_, ?_, ?_, ?_, ?_, ?_,
    ?_, ?_, ?_, ?_, ?_, ?_, ?_, ?_⟩
  · simp [exampleStore]
  · simp [exampleStore]
  · simp [exampleStore]
  · simp [exampleStore]
  · simp [exampleStore]
  · simp [exampleStore]
  · simp [exampleStore]
  · simp [exampleStore]
  · simp [exampleStore]
  · simp [exampleStore]
  · intro k hk
    simp [exampleStore] at hk
    exact ⟨tA, tP, tB, hk⟩
  · intro k hk
    simp [exampleStore] at hk
    exact ⟨tP, tB, tA, hk⟩
  · intro k hk
    simp [exampleStore] at hk
    exact ⟨tB, tA, tP, hk⟩
  · intro k hk
    simp [exampleStore] at hk
    exact ⟨tA, tP, tB, tG, hk, by simp [tG]⟩
  · intro k hk
    simp [exampleStore] at hk
    exact ⟨tP, tB, tA, tG, hk, by simp [tG]⟩
  · intro k hk
    simp [exampleStore] at hk
    exact ⟨tB, tA, tP, tG, hk, by simp [tG]⟩
  · intro k hk
    simp [exampleStore] at hk
    exact ⟨tG, tA, tP, tB, hk, by simp [tG]⟩
  · intro k hk
    simp [exampleStore] at hk
    exact ⟨tG, tP, tB, tA, hk, by simp [tG]⟩
  · intro k hk
    simp [exampleStore] at hk
    exact ⟨tG, tB, tA, tP, hk, by simp [tG]⟩
  · intro s p o
    simp [exampleStore]
    tauto
  · intro s p o
    simp [exampleStore]
    tauto
  · intro s p o g
    simp [exampleStore]
    tauto
  · intro s p o g
    simp [exampleStore]
    tauto
  · intro s p o g
    simp [exampleStore]
    tauto
  · intro s p o g
    simp [exampleStore]
    tauto
  · intro s p o g
    simp [exampleStore]
    tauto

/-- Witness for C1: the theorem applied to the concrete consistent store and
the subject-bound pattern, together with a direct evaluation of the scan. -/
theorem C1_quads_for_pattern_correct_witness :
    ((∃ l : List EncodedQuad,
      (exampleStore.quads_for_pattern (some tA) none none none).toList =
        l.map some ∧ l.Nodup ∧
      ∀ q, q ∈ l ↔ (q ∈ storedQuads exampleStore ∧
        matchesPattern (some tA) none none none q)) ∧
     (none = some EncodedTerm.defaultGraph →
      usesOnlyDefaultSide (exampleStore.quads_for_pattern (some tA) none none none)) ∧
     (∀ g, none = some g → g ≠ EncodedTerm.defaultGraph →
      usesOnlyNamedSide (exampleStore.quads_for_pattern (some tA) none none none)) ∧
     ((none : Option EncodedTerm) = none →
      usesBothSides (exampleStore.quads_for_pattern (some tA) none none none)) ∧
     (∀ c : ChainedDecodingQuadIterator,
      c.toList = (match c.next with
        | none => []
        | some (x, c') => x :: c'.toList))) ∧
    (exampleStore.quads_for_pattern (some tA) none none none).toList =
      [some qD, some qN] :=
  ⟨C1_quads_for_pattern_correct exampleStore exampleStore_consistent
      (some tA) none none none,
    by decide⟩

/-- Witness for C2: inserting the named quad `qN` into the empty store
registers it in all six named-graph keyspaces and the registry. -/
theorem C2_insert_spec_witness :
    (qN.graph_name ≠ EncodedTerm.defaultGraph) ∧
    (write_spog_quad qN ∈ (emptyStorage.insert qN).1.spog ∧
      ((emptyStorage.insert qN).2 = true ↔ write_spog_quad qN ∉ emptyStorage.spog) ∧
      ((emptyStorage.insert qN).2 = true →
        write_posg_quad qN ∈ (emptyStorage.insert qN).1.posg ∧
        write_ospg_quad qN ∈ (emptyStorage.insert qN).1.ospg ∧
        write_gspo_quad qN ∈ (emptyStorage.insert qN).1.gspo ∧
        write_gpos_quad qN ∈ (emptyStorage.insert qN).1.gpos ∧
        write_gosp_quad qN ∈ (emptyStorage.insert qN).1.gosp ∧
        write_term qN.graph_name ∈ (emptyStorage.insert qN).1.graphs) ∧
      ((emptyStorage.insert qN).2 = false → (emptyStorage.insert qN).1 = emptyStorage)) :=
  ⟨by decide, (C2_insert_spec emptyStorage qN).2 (by decide)⟩

/-- Witness for C7: double insertion of `qD` into the empty store, and removal
of the absent `qN`. -/
theorem C7_insert_twice_remove_absent_witness :
    (Storage.insert (emptyStorage.insert qD).1 qD = ((emptyStorage.insert qD).1, false)) ∧
    (¬ memQuad emptyStorage qN ∧ emptyStorage.remove qN = (emptyStorage, false)) :=
  ⟨(C7_insert_twice_remove_absent emptyStorage qD).1,
    by decide, (C7_insert_twice_remove_absent emptyStorage qN).2 (by decide)⟩

/-! ### Frame lemmas for `remove` and the graph-removal loops -/

theorem remove_graphs_eq (st : Storage) (q : EncodedQuad) :
    (st.remove q).1.graphs = st.graphs := by
  unfold Storage.remove treeRemove
  split_ifs <;> rfl

theorem remove_id2str_eq (st : Storage) (q : EncodedQuad) :
    (st.remove q).1.id2str = st.id2str := by
  unfold Storage.remove treeRemove
  split_ifs <;> rfl

theorem insert_id2str_eq (st : Storage) (q : EncodedQuad) :
    (st.insert q).1.id2str = st.id2str := by
  unfold Storage.insert treeInsert
  split_ifs <;> rfl

theorem insert_named_graph_id2str_eq (st : Storage) (g : EncodedTerm) :
    (st.insert_named_graph g).1.id2str = st.id2str := rfl

theorem removeAll_graphs_eq :
    ∀ (l : List (Option EncodedQuad)) (st : Storage),
      ((Storage.removeAll l st).1).graphs = st.graphs
  | [], _ => rfl
  | none :: _, _ => rfl
  | some q :: rest, st => by
    show ((Storage.removeAll rest (st.remove q).1).1).graphs = st.graphs
    rw [removeAll_graphs_eq rest _, remove_graphs_eq]

theorem removeAll_id2str_eq :
    ∀ (l : List (Option EncodedQuad)) (st : Storage),
      ((Storage.removeAll l st).1).id2str = st.id2str
  | [], _ => rfl
  | none :: _, _ => rfl
  | some q :: rest, st => by
    show ((Storage.removeAll rest (st.remove q).1).1).id2str = st.id2str
    rw [removeAll_id2str_eq rest _, remove_id2str_eq]

theorem removeAll_ok :
    ∀ (lq : List EncodedQuad) (st : Storage),
      Storage.removeAll (lq.map some) st = ((Storage.removeAll (lq.map some) st).1, true)
  | [], _ => rfl
  | q :: rest, st => removeAll_ok rest (st.remove q).1

theorem erase_sub_local {α : Type _} [DecidableEq α] (b : α) :
    ∀ l : List α, l.erase b ⊆ l := by
  intro l
  induction l with
  | nil => intro a ha; simp at ha
  | cons x xs ih =>
    rw [List.erase_cons]
    by_cases hxb : x = b
    · simp only [hxb, beq_self_eq_true, if_true]
      exact fun a ha => List.mem_cons_of_mem _ ha
    · simp only [beq_iff_eq, hxb, if_false]
      intro a ha
      rcases List.mem_cons.mp ha with rfl | h
      · exact List.mem_cons_self _ _
      · exact List.mem_cons_of_mem _ (ih h)

theorem nodup_erase_local {α : Type _} [DecidableEq α] (b : α) :
    ∀ {l : List α}, l.Nodup → (l.erase b).Nodup := by
  intro l
  induction l with
  | nil => intro h; simp
  | cons x xs ih =>
    intro h
    rw [List.erase_cons]
    rcases List.nodup_cons.mp h with ⟨hx, hxs⟩
    by_cases hxb : x = b
    · simp only [hxb, beq_self_eq_true, if_true]
      exact hxs
    · simp only [beq_iff_eq, hxb, if_false]
      exact List.nodup_cons.mpr ⟨fun hmem => hx (erase_sub_local b xs hmem), ih hxs⟩

theorem not_mem_erase_self_local {α : Type _} [DecidableEq α] (a : α) :
    ∀ {l : List α}, l.Nodup → a ∉ l.erase a := by
  intro l
  induction l with
  | nil => intro h hm; simp at hm
  | cons x xs ih =>
    intro h
    rw [List.erase_cons]
    rcases List.nodup_cons.mp h with ⟨hx, hxs⟩
    by_cases hxa : x = a
    · simp only [hxa, beq_self_eq_true, if_true]
      exact hxa ▸ hx
    · simp only [beq_iff_eq, hxa, if_false]
      intro hmem
      rcases List.mem_cons.mp hmem with rfl | h2
      · exact hxa rfl
      · exact ih hxs h2

theorem remove_spog_eq_default (st : Storage) (q : EncodedQuad)
    (hgb : q.graph_name.is_default_graph = true) :
    (st.remove q).1.spog = st.spog := by
  simp only [Storage.remove, hgb, if_true]
  split_ifs <;> rfl

theorem remove_dspo_eq_named (st : Storage) (q : EncodedQuad)
    (hgb : q.graph_name.is_default_graph = false) :
    (st.remove q).1.dspo = st.dspo := by
  simp only [Storage.remove, hgb, Bool.false_eq_true, if_false]
  split_ifs <;> rfl

theorem remove_spog_eq (st : Storage) (q : EncodedQuad)
    (hgb : q.graph_name.is_default_graph = false) :
    (st.remove q).1.spog = (treeRemove st.spog (write_spog_quad q)).1 := by
  simp only [Storage.remove, hgb, Bool.false_eq_true, if_false]
  split_ifs <;> rfl

theorem remove_dspo_eq (st : Storage) (q : EncodedQuad)
    (hgb : q.graph_name.is_default_graph = true) :
    (st.remove q).1.dspo = (treeRemove st.dspo (write_spo_quad q)).1 := by
  simp only [Storage.remove, hgb, if_true]
  split_ifs <;> rfl

theorem remove_spog_sub (st : Storage) (q : EncodedQuad) :
    (st.remove q).1.spog ⊆ st.spog := by
  by_cases hgb : q.graph_name.is_default_graph = true
  · rw [remove_spog_eq_default st q hgb]
    exact fun a ha => ha
  · rw [remove_spog_eq st q (Bool.eq_false_iff.mpr hgb)]
    unfold treeRemove
    split_ifs
    · exact fun a ha => erase_sub_local _ _ ha
    · exact fun a ha => ha

theorem remove_dspo_sub (st : Storage) (q : EncodedQuad) :
    (st.remove q).1.dspo ⊆ st.dspo := by
  by_cases hgb : q.graph_name.is_default_graph = true
  · rw [remove_dspo_eq st q hgb]
    unfold treeRemove
    split_ifs
    · exact fun a ha => erase_sub_local _ _ ha
    · exact fun a ha => ha
  · rw [remove_dspo_eq_named st q (Bool.eq_false_iff.mpr hgb)]
    exact fun a ha => ha

theorem remove_spog_nodup (st : Storage) (q : EncodedQuad) (h : st.spog.Nodup) :
    (st.remove q).1.spog.Nodup := by
  by_cases hgb : q.graph_name.is_default_graph = true
  · rw [remove_spog_eq_default st q hgb]
    exact h
  · rw [remove_spog_eq st q (Bool.eq_false_iff.mpr hgb)]
    unfold treeRemove
    split_ifs
    · exact nodup_erase_local _ h
    · exact h

theorem remove_dspo_nodup (st : Storage) (q : EncodedQuad) (h : st.dspo.Nodup) :
    (st.remove q).1.dspo.Nodup := by
  by_cases hgb : q.graph_name.is_default_graph = true
  · rw [remove_dspo_eq st q hgb]
    unfold treeRemove
    split_ifs
    · exact nodup_erase_local _ h
    · exact h
  · rw [remove_dspo_eq_named st q (Bool.eq_false_iff.mpr hgb)]
    exact h

theorem removeAll_spog_sub :
    ∀ (l : List (Option EncodedQuad)) (st : Storage),
      ((Storage.removeAll l st).1).spog ⊆ st.spog
  | [], _ => fun _ h => h
  | none :: _, _ => fun _ h => h
  | some q :: rest, st => by
    show ((Storage.removeAll rest (st.remove q).1).1).spog ⊆ st.spog
    exact fun a ha => remove_spog_sub st q (removeAll_spog_sub rest _ ha)

theorem removeAll_dspo_sub :
    ∀ (l : List (Option EncodedQuad)) (st : Storage),
      ((Storage.removeAll l st).1).dspo ⊆ st.dspo
  | [], _ => fun _ h => h
  | none :: _, _ => fun _ h => h
  | some q :: rest, st => by
    show ((Storage.removeAll rest (st.remove q).1).1).dspo ⊆ st.dspo
    exact fun a ha => remove_dspo_sub st q (removeAll_dspo_sub rest _ ha)

theorem remove_spog_not_mem (st : Storage) (q : EncodedQuad)
    (hnd : st.spog.Nodup) (hg : q.graph_name ≠ EncodedTerm.defaultGraph) :
    write_spog_quad q ∉ (st.remove q).1.spog := by
  have hgb : q.graph_name.is_default_graph = false :=
    Bool.eq_false_iff.mpr (fun h => hg ((is_default_graph_iff _).mp h))
  rw [remove_spog_eq st q hgb]
  unfold treeRemove
  split_ifs with h
  · exact fun hm => not_mem_erase_self_local _ hnd hm
  · exact h

theorem remove_dspo_not_mem (st : Storage) (q : EncodedQuad)
    (hnd : st.dspo.Nodup) (hg : q.graph_name = EncodedTerm.defaultGraph) :
    write_spo_quad q ∉ (st.remove q).1.dspo := by
  have hgb : q.graph_name.is_default_graph = true := (is_default_graph_iff _).mpr hg
  rw [remove_dspo_eq st q hgb]
  unfold treeRemove
  split_ifs with h
  · exact fun hm => not_mem_erase_self_local _ hnd hm
  · exact h

theorem removeAll_not_mem_spog (lq : List EncodedQuad) :
    ∀ (st : Storage) (q : EncodedQuad), st.spog.Nodup → q ∈ lq →
      q.graph_name ≠ EncodedTerm.defaultGraph →
      write_spog_quad q ∉ ((Storage.removeAll (lq.map some) st).1).spog := by
  induction lq with
  | nil => simp
  | cons q' rest ih =>
    intro st q hnd hq hg
    have he : Storage.removeAll ((q' :: rest).map some) st
        = Storage.removeAll (rest.map some) (st.remove q').1 := rfl
    rw [he]
    rcases List.mem_cons.mp hq with rfl | hq'
    · exact fun hmem =>
        remove_spog_not_mem st q hnd hg (removeAll_spog_sub _ _ hmem)
    · exact ih _ q (remove_spog_nodup st q' hnd) hq' hg

theorem removeAll_not_mem_dspo (lq : List EncodedQuad) :
    ∀ (st : Storage) (q : EncodedQuad), st.dspo.Nodup → q ∈ lq →
      q.graph_name = EncodedTerm.defaultGraph →
      write_spo_quad q ∉ ((Storage.removeAll (lq.map some) st).1).dspo := by
  induction lq with
  | nil => simp
  | cons q' rest ih =>
    intro st q hnd hq hg
    have he : Storage.removeAll ((q' :: rest).map some) st
        = Storage.removeAll (rest.map some) (st.remove q').1 := rfl
    rw [he]
    rcases List.mem_cons.mp hq with rfl | hq'
    · exact fun hmem =>
        remove_dspo_not_mem st q hnd hg (removeAll_dspo_sub _ _ hmem)
    · exact ih _ q (remove_dspo_nodup st q' hnd) hq' hg

theorem treeRemove_snd {α : Type _} [DecidableEq α] (t : List α) (k : α) :
    (treeRemove t k).2 = decide (k ∈ t) := by
  unfold treeRemove
  split_ifs with h <;> simp [h]

/-! ### Interner preservation (C5) -/

/-- A quad-level core operation other than `clear`. -/
inductive CoreOp where
  | ins (q : EncodedQuad)
  | rem (q : EncodedQuad)
  | insNamedGraph (g : EncodedTerm)
  | clearGraphOp (g : EncodedTerm)
  | removeNamedGraphOp (g : EncodedTerm)

/-- Run one core operation, keeping only the resulting state. -/
def CoreOp.apply : CoreOp → Storage → Storage
  | .ins q, st => (st.insert q).1
  | .rem q, st => (st.remove q).1
  | .insNamedGraph g, st => (st.insert_named_graph g).1
  | .clearGraphOp g, st => (st.clear_graph g).1
  | .removeNamedGraphOp g, st => (st.remove_named_graph g).1

/-- Run a sequence of core operations. -/
def applyOps (ops : List CoreOp) (st : Storage) : Storage :=
  ops.foldl (fun s op => op.apply s) st

theorem clear_graph_id2str_eq (st : Storage) (g : EncodedTerm) :
    (st.clear_graph g).1.id2str = st.id2str := by
  unfold Storage.clear_graph
  split_ifs
  · rfl
  · exact removeAll_id2str_eq _ _

theorem remove_named_graph_id2str_eq (st : Storage) (g : EncodedTerm) :
    (st.remove_named_graph g).1.id2str = st.id2str := by
  unfold Storage.remove_named_graph
  rcases hr : Storage.removeAll (st.quads_for_graph g).toList st with ⟨st', b⟩
  have h1 : st'.id2str = st.id2str := by
    have := removeAll_id2str_eq (st.quads_for_graph g).toList st
    rw [hr] at this
    exact this
  cases b <;> simpa [hr] using h1

theorem coreOp_id2str_eq (op : CoreOp) (st : Storage) :
    (op.apply st).id2str = st.id2str := by
  cases op with
  | ins q => exact insert_id2str_eq st q
  | rem q => exact remove_id2str_eq st q
  | insNamedGraph g => exact insert_named_graph_id2str_eq st g
  | clearGraphOp g => exact clear_graph_id2str_eq st g
  | removeNamedGraphOp g => exact remove_named_graph_id2str_eq st g

/-- C5 counterexample: the claim includes `clear` among the operations that
never delete an interned string, but `clear` truncates the `id2str` keyspace:
after `insert_str 7 "a"` the hash resolves, and after `clear` it does not. -/
theorem C5_counterexample :
    Storage.get_str (emptyStorage.insert_str 7 "a").1 7 = some "a" ∧
    Storage.get_str (Storage.clear (emptyStorage.insert_str 7 "a").1) 7 = none := by
  decide

/-- C5 (amended): interned strings survive every core quad operation other
than `clear`: after any sequence of `insert`, `remove`, `insert_named_graph`,
`clear_graph` and `remove_named_graph`, `get_str` answers exactly as before
(so a string interned via `insert_str` is still returned for its hash). -/
theorem C5_interner_preserved (ops : List CoreOp) (st : Storage) (h : Nat) :
    Storage.get_str (applyOps ops st) h = Storage.get_str st h := by
  induction ops generalizing st with
  | nil => rfl
  | cons op rest ih =>
    have he : applyOps (op :: rest) st = applyOps rest (op.apply st) := rfl
    rw [he, ih (op.apply st)]
    unfold Storage.get_str
    rw [coreOp_id2str_eq]

/-! ### Graph registry behaviour (C6, C10) -/

/-- C6: for a named graph `g` listed in the registry, per-quad `remove` and
`clear_graph` keep the registry entry (a graph stays listed even when it
becomes empty), while `remove_named_graph` removes every quad of `g` and then
deletes the registry entry, reporting that it was present. -/
theorem C6_registry_retention (st : Storage) (hc : Consistent st)
    (g : EncodedTerm) (hg : g ≠ EncodedTerm.defaultGraph)
    (hreg : encode_term g ∈ st.graphs) :
    (∀ q, encode_term g ∈ (st.remove q).1.graphs) ∧
    (encode_term g ∈ (st.clear_graph g).1.graphs) ∧
    ((∀ q, q.graph_name = g → ¬ memQuad (st.remove_named_graph g).1 q) ∧
      encode_term g ∉ (st.remove_named_graph g).1.graphs ∧
      (st.remove_named_graph g).2 = some true) := by
  have hb : g.is_default_graph = false := by
    rcases g <;> first | exact absurd rfl hg | rfl
  obtain ⟨lq, hl, hnd, hmem⟩ := quads_for_graph_spec st hc g
  have hok : Storage.removeAll (st.quads_for_graph g).toList st
      = ((Storage.removeAll (lq.map some) st).1, true) := by
    rw [hl]
    exact removeAll_ok lq st
  have hrn : st.remove_named_graph g
      = ({ (Storage.removeAll (lq.map some) st).1 with
            graphs := (treeRemove ((Storage.removeAll (lq.map some) st).1).graphs
              (encode_term g)).1 },
          some (treeRemove ((Storage.removeAll (lq.map some) st).1).graphs
            (encode_term g)).2) := by
    unfold Storage.remove_named_graph
    rw [hok]
  have hgr : ((Storage.removeAll (lq.map some) st).1).graphs = st.graphs := by
    have := removeAll_graphs_eq (lq.map some) st
    exact this
  refine ⟨?_, ?_, ?_, ?_, ?_⟩
  · intro q
    rw [remove_graphs_eq]
    exact hreg
  · have he : st.clear_graph g = Storage.removeAll (st.quads_for_graph g).toList st := by
      simp [Storage.clear_graph, hb]
    rw [he, hok]
    show encode_term g ∈ ((Storage.removeAll (lq.map some) st).1).graphs
    rw [hgr]
    exact hreg
  · intro q hqg
    rw [hrn]
    have hqd : q.graph_name ≠ EncodedTerm.defaultGraph := hqg ▸ hg
    rw [memQuad_named hqd]
    show write_spog_quad q ∉ ((Storage.removeAll (lq.map some) st).1).spog
    by_cases hstored : write_spog_quad q ∈ st.spog
    · have hql : q ∈ lq := by
        rw [hmem q, mem_storedQuads hc, memQuad_named hqd]
        exact ⟨hstored, by simp [matchesPattern, hqg]⟩
      exact removeAll_not_mem_spog lq st q hc.spog_nodup hql hqd
    · exact fun hm => hstored (removeAll_spog_sub _ _ hm)
  · rw [hrn]
    show encode_term g ∉ (treeRemove ((Storage.removeAll (lq.map some) st).1).graphs
      (encode_term g)).1
    rw [hgr]
    unfold treeRemove
    split_ifs
    exact not_mem_erase_self_local _ hc.graphs_nodup
  · rw [hrn]
    show some (treeRemove ((Storage.removeAll (lq.map some) st).1).graphs
      (encode_term g)).2 = some true
    rw [hgr, treeRemove_snd]
    simp [hreg]

/-- C10: `remove_named_graph` applied to the default-graph marker removes
every default-graph quad (its graph scan is a full scan of `dspo`) and then
returns whether the encoded default-graph marker itself was a key of the
`graphs` registry. -/
theorem C10_remove_named_graph_default (st : Storage) (hc : Consistent st) :
    (∀ q, q.graph_name = EncodedTerm.defaultGraph →
      ¬ memQuad (st.remove_named_graph EncodedTerm.defaultGraph).1 q) ∧
    (st.remove_named_graph EncodedTerm.defaultGraph).2 =
      some (decide (encode_term EncodedTerm.defaultGraph ∈ st.graphs)) := by
  obtain ⟨lq, hl, hnd, hmem⟩ := quads_for_graph_spec st hc EncodedTerm.defaultGraph
  have hok : Storage.removeAll
        (st.quads_for_graph EncodedTerm.defaultGraph).toList st
      = ((Storage.removeAll (lq.map some) st).1, true) := by
    rw [hl]
    exact removeAll_ok lq st
  have hrn : st.remove_named_graph EncodedTerm.defaultGraph
      = ({ (Storage.removeAll (lq.map some) st).1 with
            graphs := (treeRemove ((Storage.removeAll (lq.map some) st).1).graphs
              (encode_term EncodedTerm.defaultGraph)).1 },
          some (treeRemove ((Storage.removeAll (lq.map some) st).1).graphs
            (encode_term EncodedTerm.defaultGraph)).2) := by
    unfold Storage.remove_named_graph
    rw [hok]
  have hgr : ((Storage.removeAll (lq.map some) st).1).graphs = st.graphs :=
    removeAll_graphs_eq (lq.map some) st
  constructor
  · intro q hqg
    rw [hrn]
    rw [memQuad_default hqg]
    show write_spo_quad q ∉ ((Storage.removeAll (lq.map some) st).1).dspo
    by_cases hstored : write_spo_quad q ∈ st.dspo
    · have hql : q ∈ lq := by
        rw [hmem q, mem_storedQuads hc, memQuad_default hqg]
        exact ⟨hstored, by simp [matchesPattern, hqg]⟩
      exact removeAll_not_mem_dspo lq st q hc.dspo_nodup hql hqg
    · exact fun hm => hstored (removeAll_dspo_sub _ _ hm)
  · rw [hrn]
    show some (treeRemove ((Storage.removeAll (lq.map some) st).1).graphs
      (encode_term EncodedTerm.defaultGraph)).2 = _
    rw [hgr, treeRemove_snd]
    exact congrArg some (decide_eq_decide.mpr Iff.rfl)

/-- Witness for C6: in the concrete store, `tG` is a listed named graph;
the three clauses hold there. -/
theorem C6_registry_retention_witness :
    (tG ≠ EncodedTerm.defaultGraph) ∧ (encode_term tG ∈ exampleStore.graphs) ∧
    ((∀ q, encode_term tG ∈ (exampleStore.remove q).1.graphs) ∧
     (encode_term tG ∈ (exampleStore.clear_graph tG).1.graphs) ∧
     ((∀ q, q.graph_name = tG →
        ¬ memQuad (exampleStore.remove_named_graph tG).1 q) ∧
       encode_term tG ∉ (exampleStore.remove_named_graph tG).1.graphs ∧
       (exampleStore.remove_named_graph tG).2 = some true)) :=
  ⟨by decide, by decide,
    C6_registry_retention exampleStore exampleStore_consistent tG
      (by decide) (by decide)⟩

/-- Witness for C10: removing the "default named graph" from the concrete
store empties its default-graph side and reports that the marker was not in
the registry. -/
theorem C10_remove_named_graph_default_witness :
    (∀ q, q.graph_name = EncodedTerm.defaultGraph →
      ¬ memQuad (exampleStore.remove_named_graph EncodedTerm.defaultGraph).1 q) ∧
    (exampleStore.remove_named_graph EncodedTerm.defaultGraph).2 =
      some (decide (encode_term EncodedTerm.defaultGraph ∈ exampleStore.graphs)) :=
  C10_remove_named_graph_default exampleStore exampleStore_consistent

/-! ### Transactions (C3) -/

/-- C3: a transaction whose closure returns `Abort(E)` rolls back every update
made inside the closure — the returned state is the pre-state, all eleven
keyspaces unchanged — and returns `Abort(E)`, the sled abort being mapped
through `From<Sled2TransactionError>`. -/
theorem C3_transaction_abort {T E : Type} (st : Storage)
    (f : Storage → Storage × Except (ConflictableTransactionError E) T)
    (e : E) (fuel : Nat)
    (hf : (f st).2 = Except.error (ConflictableTransactionError.Abort e))
    (hfuel : 0 < fuel) :
    st.transaction f fuel = some (st, Except.error (TransactionError.Abort e)) := by
  cases fuel with
  | zero => exact absurd hfuel (by simp)
  | succ n =>
    rcases hft : f st with ⟨st', r⟩
    rw [hft] at hf
    simp only at hf
    subst hf
    simp [Storage.transaction, runSledTransaction, hft, TransactionError.fromSled]

/-- Witness for C3: a closure that inserts a quad and then aborts with the
user error `37` leaves the empty store untouched and surfaces `Abort 37`. -/
theorem C3_transaction_abort_witness :
    ((fun s => ((Storage.insert s qD).1,
        (Except.error (ConflictableTransactionError.Abort 37) :
          Except (ConflictableTransactionError Nat) Unit))) emptyStorage).2 =
      Except.error (ConflictableTransactionError.Abort 37) ∧
    0 < 1 ∧
    emptyStorage.transaction
        (fun s => ((Storage.insert s qD).1,
          (Except.error (ConflictableTransactionError.Abort 37) :
            Except (ConflictableTransactionError Nat) Unit))) 1 =
      some (emptyStorage, Except.error (TransactionError.Abort 37)) :=
  ⟨rfl, by decide,
    C3_transaction_abort emptyStorage
      (fun s => ((Storage.insert s qD).1,
        (Except.error (ConflictableTransactionError.Abort 37) :
          Except (ConflictableTransactionError Nat) Unit)))
      37 1 rfl (by decide)⟩

/-! ### Open and versioning (C4) -/

theorem mem_treeInsert {α : Type _} [DecidableEq α] (t : List α) (k : α) :
    k ∈ (treeInsert t k).1 := by
  unfold treeInsert
  split_ifs with h
  · exact h
  · simp

theorem treeInsert_super {α : Type _} [DecidableEq α] (t : List α) (k a : α)
    (h : a ∈ t) : a ∈ (treeInsert t k).1 := by
  unfold treeInsert
  split_ifs
  · exact h
  · exact List.mem_append_left _ h

theorem migrateQuads_ok :
    ∀ (lq : List EncodedQuad) (st : Storage),
      migrateQuads (lq.map some) st = ((migrateQuads (lq.map some) st).1, true)
  | [], _ => rfl
  | q :: rest, st =>
    migrateQuads_ok rest
      (if q.graph_name.is_default_graph then st else (st.insert_named_graph q.graph_name).1)

theorem migrateQuads_graphs_super :
    ∀ (l : List (Option EncodedQuad)) (st : Storage) (a : Key),
      a ∈ st.graphs → a ∈ ((migrateQuads l st).1).graphs
  | [], _, _, h => h
  | none :: _, _, _, h => h
  | some q :: rest, st, a, h =>
    migrateQuads_graphs_super rest _ a (by
      split_ifs
      · exact h
      · exact treeInsert_super _ _ _ h)

theorem migrateQuads_registers (lq : List EncodedQuad) :
    ∀ (st : Storage) (q : EncodedQuad), q ∈ lq →
      q.graph_name ≠ EncodedTerm.defaultGraph →
      encode_term q.graph_name ∈ ((migrateQuads (lq.map some) st).1).graphs := by
  induction lq with
  | nil => simp
  | cons q' rest ih =>
    intro st q hq hg
    have hgq : encode_term q.graph_name ∈ ((migrateQuads (rest.map some)
        (if q'.graph_name.is_default_graph then st
          else (st.insert_named_graph q'.graph_name).1)).1).graphs → _ := id
    rcases List.mem_cons.mp hq with rfl | hq'
    · have hb : q.graph_name.is_default_graph = false :=
        Bool.eq_false_iff.mpr (fun h => hg ((is_default_graph_iff _).mp h))
      show encode_term q.graph_name ∈ ((migrateQuads (rest.map some)
          (if q.graph_name.is_default_graph then st
            else (st.insert_named_graph q.graph_name).1)).1).graphs
      rw [hb]
      simp only [Bool.false_eq_true, if_false]
      exact migrateQuads_graphs_super (rest.map some) _ _
        (mem_treeInsert st.graphs (encode_term q.graph_name))
    · exact ih _ q hq' hg

/-- C4: the stored `oxversion` value determines the outcome of `do_open`
by cases — absent: `LATEST_STORAGE_VERSION` (the `latest` parameter) is
written and open succeeds; `0`: every stored quad is scanned, the graph name
of each non-default-graph quad is registered, version `1` is written, and
open then proceeds under the updated version `1`; strictly between `0` and
`latest`: the outdated-encoding error; equal to `latest`: success; greater:
the too-recent error. -/
theorem C4_open_version_cases (latest : Nat) (d : OpenState)
    (hlatest : 1 ≤ latest) :
    (d.version = none →
      do_open latest d = (d.set_version latest, versionOutcome latest latest) ∧
      versionOutcome latest latest = Except.ok ()) ∧
    (d.version = some 0 → Consistent d.storage →
      ∃ st2, migrateQuads d.storage.quads.toList d.storage = (st2, true) ∧
        do_open latest d = (OpenState.set_version { d with storage := st2 } 1,
          versionOutcome latest 1) ∧
        (∀ q, q ∈ storedQuads d.storage →
          q.graph_name ≠ EncodedTerm.defaultGraph →
          encode_term q.graph_name ∈ st2.graphs)) ∧
    (∀ v, d.version = some v → 0 < v → v < latest →
      do_open latest d = (d, Except.error (OpenError.outdated v))) ∧
    (d.version = some latest → do_open latest d = (d, Except.ok ())) ∧
    (∀ v, d.version = some v → latest < v →
      do_open latest d = (d, Except.error (OpenError.tooRecent v))) := by
  refine ⟨?_, ?_, ?_, ?_, ?_⟩
  · intro hv
    have hne : d.ensure_version latest = (d.set_version latest, latest) := by
      simp [OpenState.ensure_version, hv]
    have h0 : latest ≠ 0 := by omega
    constructor
    · simp [do_open, hne, h0]
    · simp [versionOutcome]
  · intro hv hc
    obtain ⟨lq, hl, -, hmem⟩ := quads_spec d.storage hc
    have hne : d.ensure_version latest = (d, 0) := by
      simp [OpenState.ensure_version, hv]
    refine ⟨(migrateQuads (lq.map some) d.storage).1, ?_, ?_, ?_⟩
    · rw [show d.storage.quads.toList = lq.map some from hl]
      exact migrateQuads_ok lq d.storage
    · simp only [do_open, hne]
      rw [hl, migrateQuads_ok lq d.storage]
      simp
    · intro q hq hg
      have hql : q ∈ lq := (hmem q).mpr ⟨hq, by simp [matchesPattern]⟩
      exact migrateQuads_registers lq d.storage q hql hg
  · intro v hv h0 hlt
    have hne : d.ensure_version latest = (d, v) := by
      simp [OpenState.ensure_version, hv]
    have hvne : v ≠ 0 := by omega
    simp [do_open, hne, hvne, versionOutcome, hlt]
  · intro hv
    have hne : d.ensure_version latest = (d, latest) := by
      simp [OpenState.ensure_version, hv]
    have hlne : latest ≠ 0 := by omega
    simp [do_open, hne, hlne, versionOutcome]
  · intro v hv hgt
    have hne : d.ensure_version latest = (d, v) := by
      simp [OpenState.ensure_version, hv]
    have hvne : v ≠ 0 := by omega
    have hnlt : ¬ v < latest := by omega
    have hneq : v ≠ latest := by omega
    simp [do_open, hne, hvne, versionOutcome, hnlt, hneq]

/-- An `OpenState` at the current version over the concrete store. -/
def dCur : OpenState := ⟨some 1, exampleStore⟩

/-- An `OpenState` at version `0` (pre-migration) over the concrete store. -/
def dZero : OpenState := ⟨some 0, exampleStore⟩

/-- Witness for C4: opening the concrete store at the current version
succeeds, and opening it at version `0` migrates (the named graph is already
registered) and writes version `1`. -/
theorem C4_open_version_cases_witness :
    (1 ≤ 1 ∧ do_open 1 dCur = (dCur, Except.ok ())) ∧
    do_open 1 dZero = (⟨some 1, exampleStore⟩, Except.ok ()) :=
  ⟨⟨by decide, (C4_open_version_cases 1 dCur (by decide)).2.2.2.1 rfl⟩,
    by rfl⟩

end QuadStorage
